import Mathlib

/-!
Verification development for the DistributedCache repository.

Shallow embedding of the core components:
  - the LRU store (store/lru.go, package store, lruCache),
  - the LRU-2 two-level sharded store (store/lru2.go, lru2Store),
  - the consistent hash ring (consistenthash/con_hash.go, Map),
  - the single-flight coalescer (singleflight, Group.Do),
  - the cache group and group-level cache wrapper (group.go, cache.go).

Go byte strings (keys and values) are modelled as lists of naturals;
Go maps are modelled as association lists with replace-on-insert
semantics; machine integers are modelled as Int or as Nat with explicit
reduction modulo 2^w where overflow matters.  Locks disappear in the
sequential embedding; the background goroutines (sweeper, virtual clock,
rebalancer) are modelled by passing the current instant explicitly.
-/

/-- Go byte strings: keys and cached values are byte sequences. -/
abbrev Bytes := List Nat

/-- Association list lookup: first binding of the key (Go map read). -/
def alookup {α β : Type} [DecidableEq α] (l : List (α × β)) (k : α) : Option β :=
  match l with
  | [] => none
  | (k', v) :: t => if k' = k then some v else alookup t k

/-- Go map write m[k] = v: replace the existing binding or append a new one. -/
def aupsert {α β : Type} [DecidableEq α] (l : List (α × β)) (k : α) (v : β) :
    List (α × β) :=
  match l with
  | [] => [(k, v)]
  | (k', v') :: t => if k' = k then (k, v) :: t else (k', v') :: aupsert t k v

/-- Go map delete(m, k): drop the binding of k. -/
def aerase {α β : Type} [DecidableEq α] (l : List (α × β)) (k : α) : List (α × β) :=
  l.filter (fun p => p.1 ≠ k)

/-! ## LRU store (package store, lruCache)

The Go struct keeps a doubly linked list of entries (Back is the MRU
end), a map items from key to list node, a map expires from key to
absolute expiry instant, and the byte counters.  The list is modelled
with the LRU end (Front) at the head and the MRU end (Back) at the end;
the items map is the key index over that list and every operation reads
it through a find on the list. -/

structure lruEntry where
  key : Bytes
  value : Bytes
  deriving Repr, DecidableEq

structure lruCache where
  list : List lruEntry
  expires : List (Bytes × Int)
  maxBytes : Int
  usedBytes : Int
  deriving Repr, DecidableEq

/-- newLRUCache: empty list, empty maps, usedBytes 0. -/
def newLRUCache (maxBytes : Int) : lruCache :=
  { list := [], expires := [], maxBytes := maxBytes, usedBytes := 0 }

/-- Byte cost of one entry: len(key) + value.Len() (removeElement uses the
same quantity, written there as len(entry.key)+len(entry.value)). -/
def entrySize (e : lruEntry) : Nat := e.key.length + e.value.length

/-- Sum of entry sizes over a node list. -/
def sizeSum (l : List lruEntry) : Nat :=
  match l with
  | [] => 0
  | e :: t => entrySize e + sizeSum t

/-- lruCache.removeElement: unlink the node, drop the items and expires
bindings, subtract the entry size from usedBytes (the eviction callback is
an observer and does not change the cache state). -/
def removeElement (c : lruCache) (e : lruEntry) : lruCache :=
  { list := c.list.eraseP (fun x => x.key = e.key)
    expires := aerase c.expires e.key
    maxBytes := c.maxBytes
    usedBytes := c.usedBytes - (entrySize e : Int) }

/-- lruCache.Delete: remove the entry if present, report whether it existed. -/
def lruDelete (c : lruCache) (key : Bytes) : lruCache × Bool :=
  match c.list.find? (fun e => e.key = key) with
  | some e => (removeElement c e, true)
  | none => (c, false)

/-- Body of the expiry sweep in lruCache.evict: one expires binding is
inspected and the entry is removed when its instant is strictly in the
past (time.Now().After(expTime)). -/
def sweepStep (now : Int) (acc : lruCache) (p : Bytes × Int) : lruCache :=
  if now > p.2 then
    match acc.list.find? (fun e => e.key = p.1) with
    | some e => removeElement acc e
    | none => acc
  else acc

/-- First phase of lruCache.evict: range over the expires map and remove
every expired entry. -/
def sweepExpired (c : lruCache) (now : Int) : lruCache :=
  c.expires.foldl (sweepStep now) c

/-- Second phase of lruCache.evict: while maxBytes > 0 and
usedBytes > maxBytes and the list is nonempty, remove the Front (LRU)
node.  Each pass removes exactly the head, so fuel equal to the list
length makes the recursion structural without changing the result. -/
def evictLoop : Nat → lruCache → lruCache
  | 0, c => c
  | fuel + 1, c =>
    if c.maxBytes > 0 ∧ c.usedBytes > c.maxBytes then
      match c.list with
      | [] => c
      | e :: _ => evictLoop fuel (removeElement c e)
    else c

/-- lruCache.evict: sweep expired entries, then evict from the LRU end. -/
def lruEvict (c : lruCache) (now : Int) : lruCache :=
  let c1 := sweepExpired c now
  evictLoop c1.list.length c1

/-- lruCache.SetWithExpiration.  A nil value is a deletion signal.  A
positive expiration stamps expires[key] = now + expiration, otherwise any
existing expiration is dropped.  If the key exists the entry value is
updated in place, usedBytes is adjusted by the length difference and the
node moves to the MRU end; the function returns without evicting.  If the
key is new the entry is pushed at the MRU end, usedBytes grows by
len(key)+value.Len() and evict runs. -/
def lruStampExpiry (c : lruCache) (now : Int) (key : Bytes) (expiration : Int) : lruCache :=
  { c with expires := if expiration > 0 then aupsert c.expires key (now + expiration)
                      else aerase c.expires key }

def lruSetWithExpiration (c : lruCache) (now : Int) (key : Bytes)
    (value : Option Bytes) (expiration : Int) : lruCache :=
  match value with
  | none => (lruDelete c key).1
  | some v =>
    match (lruStampExpiry c now key expiration).list.find? (fun e => e.key = key) with
    | some old =>
      { lruStampExpiry c now key expiration with
          list := ((lruStampExpiry c now key expiration).list.eraseP
                     (fun e => e.key = key)) ++ [⟨key, v⟩]
          usedBytes := c.usedBytes + ((v.length : Int) - (old.value.length : Int)) }
    | none =>
      lruEvict
        { lruStampExpiry c now key expiration with
            list := (lruStampExpiry c now key expiration).list ++ [⟨key, v⟩]
            usedBytes := c.usedBytes + ((key.length + v.length : Nat) : Int) }
        now

/-- lruCache.Set delegates to SetWithExpiration with expiration 0. -/
def lruSet (c : lruCache) (now : Int) (key : Bytes) (value : Option Bytes) : lruCache :=
  lruSetWithExpiration c now key value 0

/-- Re-check under the write lock and move the node to the MRU end
(list.MoveToBack with Back as the MRU end). -/
def moveToBack (c : lruCache) (key : Bytes) : lruCache :=
  match c.list.find? (fun e => e.key = key) with
  | some e => { c with list := (c.list.eraseP (fun x => x.key = key)) ++ [e] }
  | none => c

/-- lruCache.Get, translated exactly as written: a missing key returns
(nil, false); an entry whose expires binding is strictly in the past
returns (nil, false) and schedules an asynchronous delete (not yet applied
at return); otherwise the entry value is read, the node is moved to the
MRU end, and the function returns the value together with the literal
boolean false of the source return statement. -/
def lruGet (c : lruCache) (now : Int) (key : Bytes) :
    (Option Bytes × Bool) × lruCache :=
  match c.list.find? (fun e => e.key = key) with
  | none => ((none, false), c)
  | some e =>
    match alookup c.expires key with
    | some expTime =>
      if now > expTime then ((none, false), c)
      else ((some e.value, false), moveToBack c key)
    | none => ((some e.value, false), moveToBack c key)

/-! ## Group-level cache wrapper (cache.go) and cache group (group.go)

The wrapper and the group are generic over the underlying store.Store
implementation (lruCache or lru2Store), so the embedding takes the store
state type and its operations as parameters.  Context values are modelled
by the one fact the code reads from them: whether ctx.Value of the
from-peer key is non-nil. -/

structure CacheState (σ : Type) where
  store : Option σ
  closed : Bool
  initialized : Bool
  deriving Repr, DecidableEq

/-- Cache.ensureInitialized: on the first mutation the underlying store is
constructed (newStore is the store.NewStore result for the configured
options); afterwards it is a no-op. -/
def ensureInitialized {σ : Type} (newStore : σ) (c : CacheState σ) : CacheState σ :=
  if c.initialized then c
  else { store := some newStore, closed := c.closed, initialized := true }

/-- Cache.Add: drop the write if the cache is closed, otherwise initialize
if needed and call store.Set. -/
def cacheAdd {σ : Type} (newStore : σ) (storeSet : σ → Bytes → Bytes → σ)
    (c : CacheState σ) (key value : Bytes) : CacheState σ :=
  if c.closed then c
  else
    let c1 := ensureInitialized newStore c
    { c1 with store := some (storeSet (c1.store.getD newStore) key value) }

/-- Cache.AddWithExpiration: drop the write if the cache is closed;
initialize if needed; compute expiration = time.Until(expirationTime),
i.e. expirationTime - now; if that is not strictly positive, log and
return without touching the store; otherwise call
store.SetWithExpiration with the remaining duration. -/
def cacheAddWithExpiration {σ : Type} (newStore : σ)
    (storeSetWithExp : σ → Bytes → Bytes → Int → σ)
    (c : CacheState σ) (now : Int) (key value : Bytes)
    (expirationTime : Int) : CacheState σ :=
  if c.closed then c
  else
    let c1 := ensureInitialized newStore c
    if expirationTime - now ≤ 0 then c1
    else { c1 with
             store := some (storeSetWithExp (c1.store.getD newStore) key value
                              (expirationTime - now)) }

/-- Cache.Delete: a no-op on a closed or uninitialized cache, otherwise
store.Delete. -/
def cacheDelete {σ : Type} (storeDel : σ → Bytes → σ)
    (c : CacheState σ) (key : Bytes) : CacheState σ :=
  if c.closed ∨ ¬ c.initialized then c
  else
    match c.store with
    | some s => { c with store := some (storeDel s key) }
    | none => c

/-- Errors returned by Group.Set and Group.Delete (group.go). -/
inductive GroupErr where
  | GroupClosed
  | KeyRequired
  | ValueRequired
  deriving Repr, DecidableEq

/-- An outbound peer RPC issued by Group.syncToPeers.  Peer.Set receives
the sync context, whose from-peer marker is recorded; Peer.Delete takes no
context argument in the Peer interface. -/
inductive PeerCall where
  | set (ctxFromPeer : Bool) (key : Bytes) (value : Bytes)
  | del (key : Bytes)
  deriving Repr, DecidableEq

inductive SyncOp where
  | set
  | delete
  deriving Repr, DecidableEq

structure GroupState (σ : Type) where
  closed : Bool
  mainCache : CacheState σ
  expiration : Int
  hasPeers : Bool
  deriving Repr, DecidableEq

/-- Group.syncToPeers: nothing without a peer picker; PickPeer(key) yields
(ok, isSelf) and a not-ok or self owner ends the sync; otherwise a fresh
sync context carrying from_peer = true is built and the op dispatches to
Peer.Set (with that context) or Peer.Delete. -/
def groupSyncToPeers {σ : Type} (g : GroupState σ)
    (pick : Bytes → Bool × Bool) (op : SyncOp) (key value : Bytes) : List PeerCall :=
  if ¬ g.hasPeers then []
  else if ¬ (pick key).1 ∨ (pick key).2 then []
  else
    match op with
    | .set => [.set true key value]
    | .delete => [.del key]

/-- Group.Set: the guard order is closed, then empty key, then empty
value, each returning its error with the group untouched and no peer
traffic; then the value is cloned and written to the local cache (with
the group TTL if configured); finally, unless the incoming context
carries the from_peer marker, the mutation is propagated asynchronously
through syncToPeers.  The result records the returned error, the
post-state, and the outbound peer calls the operation spawns. -/
def groupSet {σ : Type} (newStore : σ) (storeSet : σ → Bytes → Bytes → σ)
    (storeSetWithExp : σ → Bytes → Bytes → Int → σ)
    (pick : Bytes → Bool × Bool) (g : GroupState σ) (now : Int)
    (ctxFromPeer : Bool) (key value : Bytes) :
    Option GroupErr × GroupState σ × List PeerCall :=
  if g.closed then (some .GroupClosed, g, [])
  else if key = [] then (some .KeyRequired, g, [])
  else if value = [] then (some .ValueRequired, g, [])
  else
    let cache' :=
      if g.expiration > 0 then
        cacheAddWithExpiration newStore storeSetWithExp g.mainCache now key value
          (now + g.expiration)
      else cacheAdd newStore storeSet g.mainCache key value
    let calls :=
      if ctxFromPeer = false ∧ g.hasPeers then
        groupSyncToPeers g pick .set key value
      else []
    (none, { g with mainCache := cache' }, calls)

/-- Group.Delete: closed and empty-key guards, local cache delete, and the
same from_peer-guarded propagation as Set. -/
def groupDelete {σ : Type} (storeDel : σ → Bytes → σ)
    (pick : Bytes → Bool × Bool) (g : GroupState σ)
    (ctxFromPeer : Bool) (key : Bytes) :
    Option GroupErr × GroupState σ × List PeerCall :=
  if g.closed then (some .GroupClosed, g, [])
  else if key = [] then (some .KeyRequired, g, [])
  else
    let cache' := cacheDelete storeDel g.mainCache key
    let calls :=
      if ctxFromPeer = false ∧ g.hasPeers then
        groupSyncToPeers g pick .delete key []
      else []
    (none, { g with mainCache := cache' }, calls)

/-! ## Consistent hash ring (consistenthash/con_hash.go, Map)

The hash function comes from the configuration (config.go, not part of
the core sources), so it stays a parameter.  float64 arithmetic in the
rebalancer is modelled exactly over the rationals; the Go conversion
int(x) truncates toward zero, written ratTrunc. -/

structure HashRing where
  keys : List Int
  hashMap : List (Int × String)
  nodeReplicas : List (String × Int)
  nodeCounts : List (String × Int)
  totalRequests : Int
  deriving Repr, DecidableEq

structure RingConfig where
  defaultReplicas : Int
  minReplicas : Int
  maxReplicas : Int
  loadBalanceThreshold : ℚ
  deriving Repr, DecidableEq

/-- The virtual-node hash values of one real node: H(fmt("%s-%d", node, i))
for i in [0, replicas). -/
def virtualHashes (hashFn : String → Int) (node : String) (replicas : Int) : List Int :=
  (List.range replicas.toNat).map (fun i => hashFn (node ++ "-" ++ toString i))

/-- Map.addNode: append every virtual hash to keys, bind it to the node in
hashMap, and record the replica count. -/
def addNode (hashFn : String → Int) (m : HashRing) (node : String) (replicas : Int) :
    HashRing :=
  { m with
      keys := m.keys ++ virtualHashes hashFn node replicas
      hashMap := (virtualHashes hashFn node replicas).foldl
                   (fun hm h => aupsert hm h node) m.hashMap
      nodeReplicas := aupsert m.nodeReplicas node replicas }

/-- One step of the removal loop in Map.Remove: delete the hashMap binding
for this virtual hash and remove its first occurrence from keys. -/
def dropHash (acc : HashRing) (h : Int) : HashRing :=
  { acc with keys := acc.keys.erase h, hashMap := aerase acc.hashMap h }

/-- Map.Remove: reject the empty name and unknown nodes (replica count 0);
otherwise drop each virtual hash from hashMap and remove its first
occurrence in keys, then drop the nodeReplicas and nodeCounts bindings. -/
def removeNode (hashFn : String → Int) (m : HashRing) (node : String) :
    Option HashRing :=
  if node = "" then none
  else if (alookup m.nodeReplicas node).getD 0 = 0 then none
  else
    some { (virtualHashes hashFn node ((alookup m.nodeReplicas node).getD 0)).foldl dropHash m with
             nodeReplicas :=
               aerase ((virtualHashes hashFn node ((alookup m.nodeReplicas node).getD 0)).foldl
                 dropHash m).nodeReplicas node
             nodeCounts :=
               aerase ((virtualHashes hashFn node ((alookup m.nodeReplicas node).getD 0)).foldl
                 dropHash m).nodeCounts node }

/-- sort.Search from the Go standard library: binary search for the
smallest index in [0, n) at which f is true (n when there is none),
assuming f monotone.  The loop body is i, j := 0, n; while i < j:
h := (i+j)/2; f(h) narrows to [i, h], otherwise to [h+1, j].  Fuel n
bounds the iteration count. -/
def sortSearchAux (f : Nat → Bool) : Nat → Nat → Nat → Nat
  | 0, i, _ => i
  | fuel + 1, i, j =>
    if i < j then
      if f ((i + j) / 2) then sortSearchAux f fuel i ((i + j) / 2)
      else sortSearchAux f fuel ((i + j) / 2 + 1) j
    else i

def sortSearch (n : Nat) (f : Nat → Bool) : Nat :=
  sortSearchAux f n 0 n

/-- Map.Get: an empty key returns "" at once; an empty ring returns "";
otherwise h := HashFunc(key), binary-search the first index with
keys[idx] ≥ h, wrap to 0 past the end, read the owner from hashMap,
and increment that node's count and totalRequests. -/
def ringGet (hashFn : String → Int) (m : HashRing) (key : String) :
    String × HashRing :=
  if key = "" then ("", m)
  else if m.keys.length = 0 then ("", m)
  else
    let hash := hashFn key
    let idx0 := sortSearch m.keys.length (fun i => m.keys.getD i 0 ≥ hash)
    let idx := if idx0 = m.keys.length then 0 else idx0
    let node := (alookup m.hashMap (m.keys.getD idx 0)).getD ""
    (node,
      { m with
          nodeCounts := aupsert m.nodeCounts node
                          ((alookup m.nodeCounts node).getD 0 + 1)
          totalRequests := m.totalRequests + 1 })

/-- Go float-to-int conversion on a rational: truncation toward zero. -/
def ratTrunc (q : ℚ) : Int := q.num.tdiv q.den

/-- The per-node replica target of Map.rebalanceNodes: loadRatio =
count/avg; shrink by 1/loadRatio above average, grow by (2 - loadRatio)
otherwise; clamp into [MinReplicas, MaxReplicas]. -/
def rebalanceFormula (cfg : RingConfig) (currentReplicas count : Int) (avg : ℚ) : Int :=
  let loadRatio : ℚ := (count : ℚ) / avg
  let newReplicas : Int :=
    if loadRatio > 1 then ratTrunc ((currentReplicas : ℚ) / loadRatio)
    else ratTrunc ((currentReplicas : ℚ) * (2 - loadRatio))
  let clampedLo := if newReplicas < cfg.minReplicas then cfg.minReplicas else newReplicas
  if clampedLo > cfg.maxReplicas then cfg.maxReplicas else clampedLo

/-- The same per-node target written the way the specification states it,
with a mathematical floor in place of the Go int conversion. -/
def specRebalanceReplicas (cfg : RingConfig) (currentReplicas count : Int) (avg : ℚ) : Int :=
  let loadRatio : ℚ := (count : ℚ) / avg
  let newReplicas : Int :=
    if loadRatio > 1 then ⌊(currentReplicas : ℚ) / loadRatio⌋
    else ⌊(currentReplicas : ℚ) * (2 - loadRatio)⌋
  let clampedLo := if newReplicas < cfg.minReplicas then cfg.minReplicas else newReplicas
  if clampedLo > cfg.maxReplicas then cfg.maxReplicas else clampedLo

/-- One iteration of the rebalance loop: compute the clamped target for
this node and, when it differs from the current count, Remove and re-add
the node (a Remove error skips the node). -/
def rebalanceNode (cfg : RingConfig) (hashFn : String → Int) (avg : ℚ)
    (m : HashRing) : String × Int → HashRing
  | (node, count) =>
    if rebalanceFormula cfg ((alookup m.nodeReplicas node).getD 0) count avg
        ≠ (alookup m.nodeReplicas node).getD 0 then
      match removeNode hashFn m node with
      | none => m
      | some m1 =>
        addNode hashFn m1 node
          (rebalanceFormula cfg ((alookup m.nodeReplicas node).getD 0) count avg)
    else m

/-- The counter reset and key re-sort at the end of Map.rebalanceNodes. -/
def rebalanceReset (m1 : HashRing) : HashRing :=
  { m1 with
      nodeCounts := m1.nodeCounts.map (fun p => (p.1, 0))
      totalRequests := 0
      keys := m1.keys.mergeSort (fun a b => a ≤ b) }

/-- Map.rebalanceNodes: process every nodeCounts entry with the average
load fixed up front, then zero the remaining counters, reset
totalRequests and re-sort keys. -/
def rebalanceNodes (cfg : RingConfig) (hashFn : String → Int) (m : HashRing) :
    HashRing :=
  rebalanceReset
    (m.nodeCounts.foldl
      (rebalanceNode cfg hashFn ((m.totalRequests : ℚ) / (m.nodeReplicas.length : ℚ))) m)

/-- The running maximum of |count - avg| / avg over the nodeCounts map. -/
def maxDiffFold (counts : List (String × Int)) (avg : ℚ) : ℚ :=
  counts.foldl
    (fun acc p => if |(p.2 : ℚ) - avg| / avg > acc then |(p.2 : ℚ) - avg| / avg else acc) 0

/-- Map.checkAndRebalance: ignore samples below 1000 requests; otherwise
rebalance only when the maximal relative deviation exceeds the
configured threshold. -/
def checkAndRebalance (cfg : RingConfig) (hashFn : String → Int) (m : HashRing) :
    HashRing :=
  if m.totalRequests < 1000 then m
  else if maxDiffFold m.nodeCounts ((m.totalRequests : ℚ) / (m.nodeReplicas.length : ℚ))
      > cfg.loadBalanceThreshold then
    rebalanceNodes cfg hashFn m
  else m

/-! ## LRU-2 store (store/lru2.go)

Each shard holds two arena-backed caches (admission level 0 and main
level 1).  A cache is a preallocated node slab m, an intrusive doubly
linked list dlnk over 1-based slot indices with the sentinel at 0, a key
to slot map hmap, and the allocation high-water mark last.  The global
constants p = 0 and n = 1 pick the two link directions.  The virtual
clock value is passed as now.  The eviction callback only observes
states, so it does not appear in the state transformers. -/

structure L2Node where
  k : Bytes
  v : Bytes
  expireAt : Int
  deriving Repr, DecidableEq, Inhabited

structure L2Cache where
  dlnk : List (Nat × Nat)
  m : List L2Node
  hmap : List (Bytes × Nat)
  last : Nat
  deriving Repr, DecidableEq

/-- Read dlnk[i][j] (j = 0 is the p column, j = 1 the n column). -/
def dget (d : List (Nat × Nat)) (i j : Nat) : Nat :=
  if j = 0 then (d.getD i (0, 0)).1 else (d.getD i (0, 0)).2

/-- Write dlnk[i][j] = v. -/
def dset (d : List (Nat × Nat)) (i j v : Nat) : List (Nat × Nat) :=
  if j = 0 then d.set i (v, (d.getD i (0, 0)).2)
  else d.set i ((d.getD i (0, 0)).1, v)

/-- Create(cap): zeroed arena of cap nodes, cap+1 link rows, empty map. -/
def l2Create (cap : Nat) : L2Cache :=
  { dlnk := List.replicate (cap + 1) (0, 0)
    m := List.replicate cap ⟨[], [], 0⟩
    hmap := []
    last := 0 }

/-- cache.adjust(idx, f, t): when dlnk[idx][f] is not the sentinel, splice
the node out and reattach it at the t-side head, with the six sequential
link writes of the source. -/
def adjust (c : L2Cache) (idx f t : Nat) : L2Cache :=
  if dget c.dlnk idx f ≠ 0 then
    { c with dlnk :=
        (let d1 := dset c.dlnk (dget c.dlnk idx t) f (dget c.dlnk idx f)
         let d2 := dset d1 (dget d1 idx f) t (dget d1 idx t)
         let d3 := dset d2 idx f 0
         let d4 := dset d3 idx t (dget d3 0 t)
         let d5 := dset d4 (dget d4 0 t) f idx
         dset d5 0 t idx) }
  else c

/-- cache.put(key, val, expireAt): update in place and move to the head
when the key has a slot (live or tombstoned); when the arena is
saturated, recycle the list tail slot (evicting its key from hmap, with
the callback as an observer); otherwise allocate the next slot, link it
in at the head, and record it in hmap.  The int status returned by the
source (1 insert, 0 update) is discarded by every caller in scope. -/
def l2put (c : L2Cache) (key val : Bytes) (expireAt : Int) : L2Cache :=
  match alookup c.hmap key with
  | some idx =>
    adjust
      { c with m := (c.m.set (idx - 1)
          { c.m.getD (idx - 1) default with v := val, expireAt := expireAt }) }
      idx 0 1
  | none =>
    if c.last = c.m.length then
      adjust
        { c with
            hmap := aupsert (aerase c.hmap (c.m.getD (dget c.dlnk 0 0 - 1) default).k)
                      key (dget c.dlnk 0 0)
            m := c.m.set (dget c.dlnk 0 0 - 1) ⟨key, val, expireAt⟩ }
        (dget c.dlnk 0 0) 0 1
    else
      { c with
          dlnk :=
            (let d0 := if c.hmap.length ≤ 0 then dset c.dlnk 0 0 (c.last + 1)
                       else dset c.dlnk (dget c.dlnk 0 1) 0 (c.last + 1)
             let d1 := d0.set (c.last + 1) (0, dget d0 0 1)
             dset d1 0 1 (c.last + 1))
          m := c.m.set c.last ⟨key, val, expireAt⟩
          hmap := aupsert c.hmap key (c.last + 1)
          last := c.last + 1 }

/-- cache.get(key): move the slot to the head and hand back the node
(adjust leaves the arena untouched, so the node is read from it). -/
def l2get (c : L2Cache) (key : Bytes) : L2Cache × Option L2Node :=
  match alookup c.hmap key with
  | some idx => (adjust c idx 0 1, some (c.m.getD (idx - 1) default))
  | none => (c, none)

/-- cache.del(key): when the slot exists and is live (expireAt > 0),
tombstone it (expireAt = 0), move it to the tail, and hand back the
node's value and its former expireAt. -/
def l2del (c : L2Cache) (key : Bytes) : L2Cache × Option (Bytes × Int) :=
  match alookup c.hmap key with
  | some idx =>
    if (c.m.getD (idx - 1) default).expireAt > 0 then
      (adjust
          { c with m := (c.m.set (idx - 1)
              { c.m.getD (idx - 1) default with expireAt := 0 }) }
          idx 1 0,
        some ((c.m.getD (idx - 1) default).v, (c.m.getD (idx - 1) default).expireAt))
    else (c, none)
  | none => (c, none)

/-- lru2Store._get on one level: a get whose result is filtered out when
the node is tombstoned or expired at the virtual-clock instant. -/
def l2getLevel (c : L2Cache) (key : Bytes) (now : Int) : L2Cache × Option L2Node :=
  match l2get c key with
  | (c1, some nd) =>
    if nd.expireAt ≤ 0 ∨ now ≥ nd.expireAt then (c1, none) else (c1, some nd)
  | (c1, none) => (c1, none)

/-- lru2Store.delete on one shard: del on both levels; the callback fires
once as an observer. -/
def lru2ShardDelete (c0 c1 : L2Cache) (key : Bytes) : (L2Cache × L2Cache) × Bool :=
  (((l2del c0 key).1, (l2del c1 key).1),
    (l2del c0 key).2.isSome || (l2del c1 key).2.isSome)

/-- lru2Store.Get on one shard: del the key from admission; if that found
a live node, delete everywhere when it is expired, otherwise put it into
the main level (promotion) and return it.  Otherwise consult the main
level through _get, delete everywhere when expired, else return. -/
def lru2ShardGet (c0 c1 : L2Cache) (key : Bytes) (now : Int) :
    (Option Bytes × Bool) × (L2Cache × L2Cache) :=
  match l2del c0 key with
  | (c0', some (v, e)) =>
    if e > 0 ∧ now ≥ e then ((none, false), (lru2ShardDelete c0' c1 key).1)
    else ((some v, true), (c0', l2put c1 key v e))
  | (c0', none) =>
    match l2getLevel c1 key now with
    | (c1', some nd) =>
      if nd.expireAt > 0 ∧ now ≥ nd.expireAt then
        ((none, false), (lru2ShardDelete c0' c1' key).1)
      else ((some nd.v, true), (c0', c1'))
    | (c1', none) => ((none, false), (c0', c1'))

/-- lru2Store.SetWithExpiration on one shard: stamp expireAt (0 when the
duration is not positive) and put into the admission level only. -/
def lru2ShardSet (c0 c1 : L2Cache) (key val : Bytes) (expireAt : Int) :
    L2Cache × L2Cache :=
  (l2put c0 key val expireAt, c1)

/-- BKDR string hash into 32 bits (Go int32 wraparound is two's
complement, so the low bits used by the shard mask agree with the value
modulo 2^32). -/
def hashBKRD (s : Bytes) : Nat :=
  s.foldl (fun h b => (h * 131 + b) % 4294967296) 0

/-- maskOfNextPowOf2 over the uint16 input range. -/
def maskOfNextPowOf2 (cap : Nat) : Nat :=
  if cap > 0 ∧ cap &&& (cap - 1) = 0 then cap - 1
  else
    ((cap ||| (cap >>> 1)) ||| ((cap ||| (cap >>> 1)) >>> 2)) |||
        (((cap ||| (cap >>> 1)) ||| ((cap ||| (cap >>> 1)) >>> 2)) >>> 4) |||
      ((((cap ||| (cap >>> 1)) ||| ((cap ||| (cap >>> 1)) >>> 2)) |||
        (((cap ||| (cap >>> 1)) ||| ((cap ||| (cap >>> 1)) >>> 2)) >>> 4)) >>> 8)

structure lru2Store where
  caches : List (L2Cache × L2Cache)
  mask : Nat
  deriving Repr, DecidableEq

/-- newLRU2Cache with the post-default sizes. -/
def newLRU2Store (bucketCount capPerBucket level2Cap : Nat) : lru2Store :=
  { caches := List.replicate (maskOfNextPowOf2 bucketCount + 1)
      (l2Create capPerBucket, l2Create level2Cap)
    mask := maskOfNextPowOf2 bucketCount }

def lru2Idx (key : Bytes) (mask : Nat) : Nat := hashBKRD key &&& mask

def lru2Get (s : lru2Store) (key : Bytes) (now : Int) :
    (Option Bytes × Bool) × lru2Store :=
  ((lru2ShardGet (s.caches.getD (lru2Idx key s.mask) (l2Create 0, l2Create 0)).1
      (s.caches.getD (lru2Idx key s.mask) (l2Create 0, l2Create 0)).2 key now).1,
    { s with caches := (s.caches.set (lru2Idx key s.mask)
        (lru2ShardGet (s.caches.getD (lru2Idx key s.mask) (l2Create 0, l2Create 0)).1
          (s.caches.getD (lru2Idx key s.mask) (l2Create 0, l2Create 0)).2 key now).2) })

def lru2SetWithExpiration (s : lru2Store) (key val : Bytes) (expiration now : Int) :
    lru2Store :=
  { s with caches := (s.caches.set (lru2Idx key s.mask)
      (lru2ShardSet (s.caches.getD (lru2Idx key s.mask) (l2Create 0, l2Create 0)).1
        (s.caches.getD (lru2Idx key s.mask) (l2Create 0, l2Create 0)).2 key val
        (if expiration > 0 then now + expiration else 0))) }

/-- lru2Store.Set uses the huge default duration 9999999999999999 ns. -/
def lru2Set (s : lru2Store) (key val : Bytes) (now : Int) : lru2Store :=
  lru2SetWithExpiration s key val 9999999999999999 now

/-- A key is live in a cache level when hmap points it at a slot whose
node has expireAt > 0 (expireAt = 0 is the tombstone marker). -/
def liveIn (c : L2Cache) (key : Bytes) : Bool :=
  match alookup c.hmap key with
  | some i => (c.m.getD (i - 1) default).expireAt > 0
  | none => false

/-- Well-formed arena cache: slots below the high-water mark, hmap
entries hitting allocated slots with matching keys, allocated slots
registered under their keys, and a valid list tail when saturated. -/
def L2Wf (c : L2Cache) : Prop :=
  c.last ≤ c.m.length ∧
  (∀ p ∈ c.hmap, 1 ≤ p.2 ∧ p.2 ≤ c.last ∧ (c.m.getD (p.2 - 1) default).k = p.1) ∧
  (∀ i, i < c.last → alookup c.hmap ((c.m.getD i default).k) = some (i + 1)) ∧
  (c.last = c.m.length → 1 ≤ dget c.dlnk 0 0 ∧ dget c.dlnk 0 0 ≤ c.last)

instance (c : L2Cache) : Decidable (L2Wf c) := by
  unfold L2Wf
  infer_instance

/-! ## Single-flight (package singleflight, Group.Do)

Group.Do for one fixed key, as an interleaving of atomic steps over a
shared state: the sync.Map slot for the key (g.m), and the per-caller
call records (val and the WaitGroup done flag).  Each caller is a thread
executing the statements of Do in order: Load; on a miss Store a fresh
record; run fn, writing c.val; wg.Done; g.m.Delete; return c.val.  On a
hit the caller blocks in wg.Wait until the record's producer has run
Done, then returns that record's val.  The result of the invocation run
by thread t is fval t, so results identify the invocation that produced
them.  Two ghost fields record what the claim speaks about: joined (the
producer whose in-flight record this caller coalesced onto, set at its
Load) and didInvoke (whether this caller ran fn). -/

inductive SFPc where
  | start
  | install
  | run
  | finish
  | del
  | waiting (prod : Nat)
  | done (res : Option Nat)
  deriving Repr, DecidableEq

structure SFCall where
  val : Option Nat
  done : Bool
  deriving Repr, DecidableEq

structure SFThread where
  pc : SFPc
  joined : Option Nat
  didInvoke : Bool
  deriving Repr, DecidableEq

structure SFConfig where
  slot : Option Nat
  calls : Nat → SFCall
  threads : Nat → SFThread

/-- One atomic step of thread t (a no-op when t is blocked in Wait on an
unfinished record, or already returned). -/
def sfStep (fval : Nat → Nat) (cfg : SFConfig) (t : Nat) : SFConfig :=
  match (cfg.threads t).pc with
  | .start =>
    match cfg.slot with
    | some prod =>
      { cfg with threads := (Function.update cfg.threads t
          { cfg.threads t with pc := .waiting prod, joined := some prod }) }
    | none =>
      { cfg with threads := (Function.update cfg.threads t
          { cfg.threads t with pc := .install }) }
  | .install =>
    { slot := some t
      calls := (Function.update cfg.calls t { val := none, done := false })
      threads := (Function.update cfg.threads t { cfg.threads t with pc := .run }) }
  | .run =>
    { cfg with
        calls := (Function.update cfg.calls t
          { cfg.calls t with val := some (fval t) })
        threads := (Function.update cfg.threads t
          { cfg.threads t with pc := .finish, didInvoke := true }) }
  | .finish =>
    { cfg with
        calls := (Function.update cfg.calls t { cfg.calls t with done := true })
        threads := (Function.update cfg.threads t { cfg.threads t with pc := .del }) }
  | .del =>
    { cfg with
        slot := none
        threads := (Function.update cfg.threads t
          { cfg.threads t with pc := .done (cfg.calls t).val }) }
  | .waiting prod =>
    if (cfg.calls prod).done then
      { cfg with threads := (Function.update cfg.threads t
          { cfg.threads t with pc := .done (cfg.calls prod).val }) }
    else cfg
  | .done _ => cfg

/-- Run a schedule (an arbitrary interleaving of thread identifiers). -/
def sfRun (fval : Nat → Nat) (sched : List Nat) (cfg : SFConfig) : SFConfig :=
  sched.foldl (sfStep fval) cfg

/-- All callers about to issue their Load, no record installed. -/
def sfInit : SFConfig :=
  { slot := none
    calls := fun _ => { val := none, done := false }
    threads := fun _ => { pc := .start, joined := none, didInvoke := false } }

/-- The inductive invariant of the single-flight protocol: record values
are only ever the owner's fn result; a set done flag means the owner ran
fn and stored its result; threads past fn carry their result; the
installed record's owner is between its Store and Delete; a caller that
coalesced onto producer P never runs fn and is either still waiting or
holds exactly P's stored result; a caller that coalesced onto nobody and
returned ran fn itself and returned its own result. -/
def SFInv (fval : Nat → Nat) (cfg : SFConfig) : Prop :=
  (∀ t, (cfg.calls t).val = none ∨ (cfg.calls t).val = some (fval t)) ∧
  (∀ t, (cfg.calls t).done = true →
    (cfg.calls t).val = some (fval t) ∧ (cfg.threads t).didInvoke = true) ∧
  (∀ t, ((cfg.threads t).pc = .finish ∨ (cfg.threads t).pc = .del) →
    (cfg.calls t).val = some (fval t) ∧ (cfg.threads t).didInvoke = true) ∧
  (∀ P, cfg.slot = some P →
    (cfg.threads P).pc = .run ∨ (cfg.threads P).pc = .finish ∨
      (cfg.threads P).pc = .del) ∧
  (∀ t, (cfg.threads t).pc = .start →
    (cfg.threads t).didInvoke = false ∧ (cfg.threads t).joined = none) ∧
  (∀ t P, (cfg.threads t).pc = .waiting P → (cfg.threads t).joined = some P) ∧
  (∀ t P, (cfg.threads t).joined = some P →
    (cfg.threads t).didInvoke = false ∧
    (cfg.threads P).pc ≠ .start ∧ (cfg.threads P).pc ≠ .install ∧
    ((cfg.threads t).pc = .waiting P ∨
      ((cfg.threads t).pc = .done (some (fval P)) ∧ (cfg.calls P).done = true))) ∧
  (∀ t r, (cfg.threads t).pc = .done r → (cfg.threads t).joined = none →
    (cfg.threads t).didInvoke = true ∧ r = some (fval t))

/-! ## Lemmas about the LRU store -/

theorem removeElement_maxBytes (c : lruCache) (e : lruEntry) :
    (removeElement c e).maxBytes = c.maxBytes := rfl

theorem sizeSum_eraseP_of_find? {l : List lruEntry} {k : Bytes} {e : lruEntry}
    (h : l.find? (fun x => x.key = k) = some e) :
    sizeSum (l.eraseP (fun x => x.key = e.key)) + entrySize e = sizeSum l := by
  induction l with
  | nil => simp [List.find?] at h
  | cons a t ih =>
    by_cases hk : a.key = k
    · rw [List.find?_cons_of_pos _ (by simp [hk])] at h
      obtain rfl : a = e := by simpa using h
      rw [List.eraseP_cons_of_pos (by simp)]
      simp [sizeSum, Nat.add_comm]
    · rw [List.find?_cons_of_neg _ (by simp [hk])] at h
      have hek : e.key = k := by
        have := List.find?_some h
        simpa using this
      rw [List.eraseP_cons_of_neg (by simp [hek, hk])]
      simp only [sizeSum]
      have := ih h
      omega

theorem removeElement_inv {c : lruCache} {k : Bytes} {e : lruEntry}
    (h : c.list.find? (fun x => x.key = k) = some e)
    (hinv : c.usedBytes = (sizeSum c.list : Int)) :
    (removeElement c e).usedBytes = (sizeSum (removeElement c e).list : Int) := by
  have hsum := sizeSum_eraseP_of_find? h
  simp only [removeElement, hinv]
  omega

theorem sweepStep_spec (now : Int) (acc : lruCache) (p : Bytes × Int)
    (h : acc.usedBytes = (sizeSum acc.list : Int)) :
    (sweepStep now acc p).usedBytes = (sizeSum (sweepStep now acc p).list : Int) ∧
      (sweepStep now acc p).maxBytes = acc.maxBytes := by
  unfold sweepStep
  by_cases hp : now > p.2
  · rw [if_pos hp]
    cases hfind : acc.list.find? (fun e => e.key = p.1) with
    | none => simp only [hfind]; exact ⟨h, trivial⟩
    | some e =>
      simp only [hfind]
      exact ⟨removeElement_inv hfind h, removeElement_maxBytes _ _⟩
  · rw [if_neg hp]
    exact ⟨h, rfl⟩

theorem sweepFold_spec (now : Int) :
    ∀ (exps : List (Bytes × Int)) (acc : lruCache),
      acc.usedBytes = (sizeSum acc.list : Int) →
      (exps.foldl (sweepStep now) acc).usedBytes =
        (sizeSum (exps.foldl (sweepStep now) acc).list : Int) ∧
      (exps.foldl (sweepStep now) acc).maxBytes = acc.maxBytes := by
  intro exps
  induction exps with
  | nil => intro acc h; exact ⟨h, rfl⟩
  | cons p t ih =>
    intro acc h
    simp only [List.foldl_cons]
    obtain ⟨h1, h2⟩ := sweepStep_spec now acc p h
    obtain ⟨h3, h4⟩ := ih (sweepStep now acc p) h1
    exact ⟨h3, h4.trans h2⟩

theorem evictLoop_spec :
    ∀ (fuel : Nat) (c : lruCache),
      c.list.length ≤ fuel →
      c.usedBytes = (sizeSum c.list : Int) →
      0 < c.maxBytes →
      (evictLoop fuel c).usedBytes ≤ (evictLoop fuel c).maxBytes := by
  intro fuel
  induction fuel with
  | zero =>
    intro c hlen hinv hmax
    have hnil : c.list = [] := List.length_eq_zero.mp (Nat.le_zero.mp hlen)
    show c.usedBytes ≤ c.maxBytes
    rw [hinv, hnil]
    have h0 : sizeSum ([] : List lruEntry) = 0 := rfl
    rw [h0]
    simpa using le_of_lt hmax
  | succ n ih =>
    intro c hlen hinv hmax
    simp only [evictLoop]
    by_cases hcond : c.maxBytes > 0 ∧ c.usedBytes > c.maxBytes
    · rw [if_pos hcond]
      cases hl : c.list with
      | nil =>
        exfalso
        rw [hl] at hinv
        simp [sizeSum] at hinv
        omega
      | cons e t =>
        have hfind : c.list.find? (fun x => x.key = e.key) = some e := by
          rw [hl]; exact List.find?_cons_of_pos _ (by simp)
        have hinv' := removeElement_inv hfind hinv
        have hlist' : (removeElement c e).list = t := by
          simp only [removeElement]
          rw [hl, List.eraseP_cons_of_pos (by simp)]
        apply ih
        · rw [hlist']
          have : c.list.length = t.length + 1 := by rw [hl]; rfl
          omega
        · exact hinv'
        · rw [removeElement_maxBytes]; exact hmax
    · rw [if_neg hcond]
      omega

theorem lruEvict_le {c : lruCache} (now : Int)
    (hinv : c.usedBytes = (sizeSum c.list : Int))
    (hmax : 0 < c.maxBytes) :
    (lruEvict c now).usedBytes ≤ (lruEvict c now).maxBytes := by
  have hs := sweepFold_spec now c.expires c hinv
  have h1 : (sweepExpired c now).usedBytes = (sizeSum (sweepExpired c now).list : Int) := hs.1
  have h2 : (0 : Int) < (sweepExpired c now).maxBytes := by
    have : (sweepExpired c now).maxBytes = c.maxBytes := hs.2
    rw [this]; exact hmax
  exact evictLoop_spec _ _ le_rfl h1 h2

theorem sizeSum_append (l1 l2 : List lruEntry) :
    sizeSum (l1 ++ l2) = sizeSum l1 + sizeSum l2 := by
  induction l1 with
  | nil => simp [sizeSum]
  | cons e t ih =>
    show entrySize e + sizeSum (t ++ l2) = (entrySize e + sizeSum t) + sizeSum l2
    rw [ih]
    omega

/-- C1.  The spec claims that after Set(k, v), with no expiration, no
intervening Delete and no eviction, lruCache.Get(k) returns the stored
value together with the boolean true and moves the node to the MRU end.
The code at the failing input Set("a", 2 bytes) then Get("a"): the stored
value is returned and the node does sit at the MRU end, but the success
path of lruCache.Get ends in return value, false — the presence flag is
false where the Store contract, the spec, and every caller (cache.Cache.Get
counts found via this flag) require true. -/
theorem C1_lru_get_hit_returns_false :
    (lruGet (lruSet (newLRUCache 100) 0 [97] (some [1, 2])) 0 [97]).1
      = (some [1, 2], false) ∧
    (lruGet (lruSet (newLRUCache 100) 0 [97] (some [1, 2])) 0 [97]).2.list
      = [⟨[97], [1, 2]⟩] := by
  decide

/-- C3 counterexample: with maxBytes = 10, Set("a", 2-byte value) gives
usedBytes = 3; a second Set("a", 20-byte value) takes the update path,
which adjusts usedBytes to 21 and returns before evict runs, so the store
ends the Set with usedBytes = 21 > maxBytes = 10. -/
theorem C3_update_path_exceeds_maxBytes :
    ¬ ((lruSet (lruSet (newLRUCache 10) 0 [97] (some [1, 2])) 0 [97]
          (some (List.replicate 20 0))).usedBytes
        ≤ (lruSet (lruSet (newLRUCache 10) 0 [97] (some [1, 2])) 0 [97]
          (some (List.replicate 20 0))).maxBytes) := by
  decide

/-- C3 (amended): for every LRU store with maxBytes > 0 whose byte counter
agrees with its entry list, a Set that inserts a key not already present
ends with usedBytes ≤ maxBytes.  The original claim also covered a Set
updating an existing key with a larger value, but that path returns before
evict runs and can exceed maxBytes (see the counterexample). -/
theorem C3_insert_set_respects_maxBytes
    (c : lruCache) (now : Int) (key v : Bytes) (expiration : Int)
    (hinv : c.usedBytes = (sizeSum c.list : Int))
    (hmax : 0 < c.maxBytes)
    (habs : c.list.find? (fun e => e.key = key) = none) :
    (lruSetWithExpiration c now key (some v) expiration).usedBytes
      ≤ (lruSetWithExpiration c now key (some v) expiration).maxBytes := by
  have hfind : (lruStampExpiry c now key expiration).list.find?
      (fun e => e.key = key) = none := by
    have hproj : (lruStampExpiry c now key expiration).list = c.list := rfl
    rw [hproj]; exact habs
  simp only [lruSetWithExpiration, hfind]
  apply lruEvict_le
  · show c.usedBytes + ((key.length + v.length : Nat) : Int)
      = (sizeSum (c.list ++ [⟨key, v⟩]) : Int)
    rw [sizeSum_append, hinv]
    simp only [sizeSum, entrySize]
    push_cast
    ring
  · exact hmax

/-- Witness for the amended C3 theorem at a concrete input. -/
theorem C3_insert_set_respects_maxBytes_witness :
    (newLRUCache 10).usedBytes = (sizeSum (newLRUCache 10).list : Int) ∧
    0 < (newLRUCache 10).maxBytes ∧
    (newLRUCache 10).list.find? (fun e => e.key = [97]) = none ∧
    (lruSetWithExpiration (newLRUCache 10) 0 [97] (some [1, 2]) 0).usedBytes
      ≤ (lruSetWithExpiration (newLRUCache 10) 0 [97] (some [1, 2]) 0).maxBytes :=
  ⟨by decide, by decide, by decide,
    C3_insert_set_respects_maxBytes (newLRUCache 10) 0 [97] [1, 2] 0
      (by decide) (by decide) (by decide)⟩

/-! ## Claims about the group layer -/

/-- C10.  Cache.AddWithExpiration computes expiration = time.Until(t) and,
when that is not strictly positive, logs and returns before calling
store.SetWithExpiration: on an initialized cache the whole cache state is
returned unchanged — the value is neither inserted as already expired nor
treated as a deletion of an existing entry for the key. -/
theorem C10_add_with_past_expiration_is_noop {σ : Type} (newStore : σ)
    (storeSetWithExp : σ → Bytes → Bytes → Int → σ)
    (c : CacheState σ) (now : Int) (key value : Bytes) (t : Int)
    (hpast : t - now ≤ 0) (hinit : c.initialized = true) :
    cacheAddWithExpiration newStore storeSetWithExp c now key value t = c := by
  unfold cacheAddWithExpiration ensureInitialized
  by_cases hc : c.closed
  · simp [hc]
  · simp [hc, hinit, hpast]

/-- Witness for C10 at a concrete input: an initialized LRU-backed cache,
now = 0, expiration instant -1. -/
theorem C10_add_with_past_expiration_is_noop_witness :
    ((-1 : Int) - 0 ≤ 0) ∧
    (({ store := some (newLRUCache 5), closed := false, initialized := true }
        : CacheState lruCache).initialized = true) ∧
    cacheAddWithExpiration (newLRUCache 5)
        (fun s k v d => lruSetWithExpiration s 0 k (some v) d)
        { store := some (newLRUCache 5), closed := false, initialized := true }
        0 [97] [1] (-1)
      = { store := some (newLRUCache 5), closed := false, initialized := true } :=
  ⟨by decide, rfl,
    C10_add_with_past_expiration_is_noop (newLRUCache 5)
      (fun s k v d => lruSetWithExpiration s 0 k (some v) d)
      { store := some (newLRUCache 5), closed := false, initialized := true }
      0 [97] [1] (-1) (by decide) rfl⟩

/-- C9.  Group.Set checks, in order: closed group (GroupClosed), empty key
(KeyRequired), empty value (ValueRequired); each error is returned with
the group state untouched and no peer call issued. -/
theorem C9_group_set_error_order {σ : Type} (newStore : σ)
    (storeSet : σ → Bytes → Bytes → σ)
    (storeSetWithExp : σ → Bytes → Bytes → Int → σ)
    (pick : Bytes → Bool × Bool) (g : GroupState σ) (now : Int)
    (ctxFromPeer : Bool) (key value : Bytes) :
    (g.closed = true →
      groupSet newStore storeSet storeSetWithExp pick g now ctxFromPeer key value
        = (some .GroupClosed, g, [])) ∧
    (g.closed = false → key = [] →
      groupSet newStore storeSet storeSetWithExp pick g now ctxFromPeer key value
        = (some .KeyRequired, g, [])) ∧
    (g.closed = false → key ≠ [] → value = [] →
      groupSet newStore storeSet storeSetWithExp pick g now ctxFromPeer key value
        = (some .ValueRequired, g, [])) := by
  refine ⟨fun hc => ?_, fun hc hk => ?_, fun hc hk hv => ?_⟩
  · simp [groupSet, hc]
  · simp [groupSet, hc, hk]
  · simp [groupSet, hc, hk, hv]

/-- Witness for C9: the three error cases at concrete inputs over an
LRU-backed group. -/
theorem C9_group_set_error_order_witness :
    (groupSet (newLRUCache 5) (fun s k v => lruSet s 0 k (some v))
        (fun s k v d => lruSetWithExpiration s 0 k (some v) d)
        (fun _ => (false, false))
        { closed := true, mainCache := { store := none, closed := false, initialized := false },
          expiration := 0, hasPeers := false } 0 false [1] [2]
      = (some .GroupClosed,
          { closed := true, mainCache := { store := none, closed := false, initialized := false },
            expiration := 0, hasPeers := false }, [])) ∧
    (groupSet (newLRUCache 5) (fun s k v => lruSet s 0 k (some v))
        (fun s k v d => lruSetWithExpiration s 0 k (some v) d)
        (fun _ => (false, false))
        { closed := false, mainCache := { store := none, closed := false, initialized := false },
          expiration := 0, hasPeers := false } 0 false [] [2]
      = (some .KeyRequired,
          { closed := false, mainCache := { store := none, closed := false, initialized := false },
            expiration := 0, hasPeers := false }, [])) ∧
    (groupSet (newLRUCache 5) (fun s k v => lruSet s 0 k (some v))
        (fun s k v d => lruSetWithExpiration s 0 k (some v) d)
        (fun _ => (false, false))
        { closed := false, mainCache := { store := none, closed := false, initialized := false },
          expiration := 0, hasPeers := false } 0 false [1] []
      = (some .ValueRequired,
          { closed := false, mainCache := { store := none, closed := false, initialized := false },
            expiration := 0, hasPeers := false }, [])) :=
  ⟨(C9_group_set_error_order _ _ _ _ _ _ _ _ _).1 rfl,
    (C9_group_set_error_order _ _ _ _ _ _ _ _ _).2.1 rfl rfl,
    (C9_group_set_error_order _ _ _ _ _ _ _ _ _).2.2 rfl (by decide) rfl⟩

/-- C6.  A Set or Delete whose incoming context carries the from_peer
marker spawns no peer call at all; a Set or Delete without the marker, on
a group with a peer picker, whose owner is a reachable non-self peer,
propagates the mutation to that owner — the propagated Peer.Set receives
the fresh sync context carrying from_peer = true, and the propagated
Peer.Delete is issued through the same marker-carrying syncToPeers path
(the Peer interface gives Delete no context parameter; inbound handlers
tag their own context, §6 of the spec). -/
theorem C6_from_peer_loop_prevention {σ : Type} (newStore : σ)
    (storeSet : σ → Bytes → Bytes → σ)
    (storeSetWithExp : σ → Bytes → Bytes → Int → σ)
    (storeDel : σ → Bytes → σ)
    (pick : Bytes → Bool × Bool) (g : GroupState σ) (now : Int)
    (key value : Bytes) :
    ((groupSet newStore storeSet storeSetWithExp pick g now true key value).2.2 = [] ∧
      (groupDelete storeDel pick g true key).2.2 = []) ∧
    (g.hasPeers = true → (pick key).1 = true → (pick key).2 = false →
      g.closed = false → key ≠ [] → value ≠ [] →
      (groupSet newStore storeSet storeSetWithExp pick g now false key value).2.2
          = [.set true key value] ∧
      (groupDelete storeDel pick g false key).2.2 = [.del key]) := by
  constructor
  · constructor
    · unfold groupSet
      split
      · rfl
      split
      · rfl
      split
      · rfl
      · simp
    · unfold groupDelete
      split
      · rfl
      split
      · rfl
      · simp
  · intro hpeers hok hself hclosed hk hv
    constructor
    · simp [groupSet, groupSyncToPeers, hclosed, hk, hv, hpeers, hok, hself]
    · simp [groupDelete, groupSyncToPeers, hclosed, hk, hpeers, hok, hself]

/-- Witness for C6 at a concrete input: an open LRU-backed group with a
peer picker whose owner for the key is a non-self peer. -/
theorem C6_from_peer_loop_prevention_witness :
    ((groupSet (newLRUCache 5) (fun s k v => lruSet s 0 k (some v))
        (fun s k v d => lruSetWithExpiration s 0 k (some v) d)
        (fun _ => (true, false))
        { closed := false, mainCache := { store := none, closed := false, initialized := false },
          expiration := 0, hasPeers := true } 0 true [1] [2]).2.2 = [] ∧
      (groupDelete (fun s k => (lruDelete s k).1) (fun _ => (true, false))
        { closed := false, mainCache := { store := none, closed := false, initialized := false },
          expiration := 0, hasPeers := true } true [1]).2.2 = []) ∧
    ((groupSet (newLRUCache 5) (fun s k v => lruSet s 0 k (some v))
        (fun s k v d => lruSetWithExpiration s 0 k (some v) d)
        (fun _ => (true, false))
        { closed := false, mainCache := { store := none, closed := false, initialized := false },
          expiration := 0, hasPeers := true } 0 false [1] [2]).2.2
        = [.set true [1] [2]] ∧
      (groupDelete (fun s k => (lruDelete s k).1) (fun _ => (true, false))
        { closed := false, mainCache := { store := none, closed := false, initialized := false },
          expiration := 0, hasPeers := true } false [1]).2.2 = [.del [1]]) :=
  ⟨(C6_from_peer_loop_prevention _ _ _ _ _ _ _ _ _).1,
    (C6_from_peer_loop_prevention _ _ _ _ _ _ _ _ _).2 rfl rfl rfl rfl
      (by decide) (by decide)⟩

/-! ## Lemmas about the consistent hash ring -/

theorem alookup_aupsert_self {α β : Type} [DecidableEq α]
    (l : List (α × β)) (k : α) (v : β) :
    alookup (aupsert l k v) k = some v := by
  induction l with
  | nil => simp [aupsert, alookup]
  | cons p t ih =>
    obtain ⟨k', v'⟩ := p
    by_cases h : k' = k
    · simp [aupsert, alookup, h]
    · simp [aupsert, alookup, h, ih]

theorem sortSearchAux_spec (f : Nat → Bool) (n : Nat)
    (hmono : ∀ a b, a ≤ b → b < n → f a = true → f b = true) :
    ∀ (fuel i j : Nat), j - i ≤ fuel → i ≤ j → j ≤ n →
      (∀ k, k < i → f k = false) →
      (j < n → f j = true) →
      i ≤ sortSearchAux f fuel i j ∧ sortSearchAux f fuel i j ≤ j ∧
      (∀ k, k < sortSearchAux f fuel i j → f k = false) ∧
      (sortSearchAux f fuel i j < n → f (sortSearchAux f fuel i j) = true) := by
  intro fuel
  induction fuel with
  | zero =>
    intro i j hfuel hij hjn hlow hhigh
    have : i = j := by omega
    subst this
    exact ⟨le_rfl, le_rfl, hlow, hhigh⟩
  | succ fl ih =>
    intro i j hfuel hij hjn hlow hhigh
    simp only [sortSearchAux]
    by_cases hlt : i < j
    · rw [if_pos hlt]
      have hhl : i ≤ (i + j) / 2 := by omega
      have hhr : (i + j) / 2 < j := by omega
      cases hfh : f ((i + j) / 2) with
      | true =>
        rw [if_pos rfl]
        have := ih i ((i + j) / 2) (by omega) hhl (by omega) hlow
          (fun _ => hfh)
        exact ⟨this.1, le_trans this.2.1 (le_of_lt hhr), this.2.2.1, this.2.2.2⟩
      | false =>
        rw [if_neg (by simp)]
        have hlow' : ∀ k, k < (i + j) / 2 + 1 → f k = false := by
          intro k hk
          by_cases hki : k < i
          · exact hlow k hki
          · cases hfk : f k with
            | false => rfl
            | true =>
              exfalso
              have : f ((i + j) / 2) = true :=
                hmono k ((i + j) / 2) (by omega) (by omega) hfk
              rw [hfh] at this
              exact Bool.noConfusion this
        have := ih ((i + j) / 2 + 1) j (by omega) (by omega) hjn hlow' hhigh
        exact ⟨by omega, this.2.1, this.2.2.1, this.2.2.2⟩
    · rw [if_neg hlt]
      have : i = j := by omega
      subst this
      exact ⟨le_rfl, le_rfl, hlow, hhigh⟩

theorem sortSearch_spec (f : Nat → Bool) (n : Nat)
    (hmono : ∀ a b, a ≤ b → b < n → f a = true → f b = true) :
    sortSearch n f ≤ n ∧
    (∀ k, k < sortSearch n f → f k = false) ∧
    (sortSearch n f < n → f (sortSearch n f) = true) := by
  have := sortSearchAux_spec f n hmono n 0 n (by omega) (Nat.zero_le n) le_rfl
    (fun k hk => absurd hk (Nat.not_lt_zero k)) (fun h => absurd h (lt_irrefl n))
  exact ⟨this.2.1, this.2.2.1, this.2.2.2⟩

theorem getD_mono_of_sorted {l : List Int} (hs : l.Sorted (· ≤ ·))
    {a b : Nat} (hab : a ≤ b) (hb : b < l.length) :
    l.getD a 0 ≤ l.getD b 0 := by
  have ha : a < l.length := Nat.lt_of_le_of_lt hab hb
  rw [List.getD_eq_getElem?_getD, List.getD_eq_getElem?_getD,
    List.getElem?_eq_getElem ha, List.getElem?_eq_getElem hb]
  simp only [Option.getD_some]
  exact hs.rel_get_of_le (a := ⟨a, ha⟩) (b := ⟨b, hb⟩) (Fin.mk_le_mk.mpr hab)

/-- C5 counterexample: a ring holding one virtual node for "A" and the
empty key.  Get("") returns "" through the empty-key guard at the top of
Map.Get, with no counter increment, while the claim (quantified over
every key) requires the owner hashMap[keys[idx]] = "A" and an increment
of totalRequests. -/
theorem C5_empty_key_not_routed :
    (ringGet (fun _ => 5)
        { keys := [7], hashMap := [(7, "A")], nodeReplicas := [("A", 1)],
          nodeCounts := [], totalRequests := 0 } "").1 = "" ∧
    (ringGet (fun _ => 5)
        { keys := [7], hashMap := [(7, "A")], nodeReplicas := [("A", 1)],
          nodeCounts := [], totalRequests := 0 } "").2.totalRequests = 0 ∧
    (alookup ([(7, "A")] : List (Int × String)) 7).getD "" = "A" ∧
    ("A" : String) ≠ "" := by
  refine ⟨rfl, rfl, rfl, ?_⟩
  decide

/-- C5 (amended): for every non-empty key on a ring with a sorted keys
array: when the ring holds no virtual nodes, Map.Get returns "" with the
ring unchanged; otherwise Map.Get computes h = H(key), finds the first
index i with keys[i] ≥ h (wrapping to 0 when no index qualifies), returns
hashMap[keys[i]], and increments that node's count and totalRequests.
The original claim also covered the empty key, but Map.Get returns ""
for it before consulting the ring (see the counterexample). -/
theorem C5_ring_get_routes_nonempty_key (hashFn : String → Int) (m : HashRing)
    (key : String) (hkey : key ≠ "") (hsorted : m.keys.Sorted (· ≤ ·)) :
    (m.keys = [] → ringGet hashFn m key = ("", m)) ∧
    (m.keys ≠ [] → ∃ i, i < m.keys.length ∧
      (∀ k, k < i → ¬ (m.keys.getD k 0 ≥ hashFn key)) ∧
      (m.keys.getD i 0 ≥ hashFn key ∨
        (i = 0 ∧ ∀ k, k < m.keys.length → ¬ (m.keys.getD k 0 ≥ hashFn key))) ∧
      (ringGet hashFn m key).1 = (alookup m.hashMap (m.keys.getD i 0)).getD "" ∧
      (ringGet hashFn m key).2.totalRequests = m.totalRequests + 1 ∧
      (alookup (ringGet hashFn m key).2.nodeCounts ((ringGet hashFn m key).1)).getD 0
        = (alookup m.nodeCounts ((ringGet hashFn m key).1)).getD 0 + 1) := by
  constructor
  · intro he
    simp only [ringGet, if_neg hkey]
    rw [if_pos (by rw [he]; rfl)]
  · intro hne
    have hlen : ¬ (m.keys.length = 0) := fun h => hne (List.length_eq_zero.mp h)
    have hmono : ∀ a b, a ≤ b → b < m.keys.length →
        (decide (m.keys.getD a 0 ≥ hashFn key) = true) →
        (decide (m.keys.getD b 0 ≥ hashFn key) = true) := by
      intro a b hab hb hfa
      rw [decide_eq_true_eq] at hfa ⊢
      exact le_trans hfa (getD_mono_of_sorted hsorted hab hb)
    obtain ⟨hle, hbelow, hat⟩ :=
      sortSearch_spec (fun i => m.keys.getD i 0 ≥ hashFn key) m.keys.length hmono
    simp only [ringGet, if_neg hkey, if_neg hlen]
    by_cases hwrap :
        sortSearch m.keys.length (fun i => m.keys.getD i 0 ≥ hashFn key)
          = m.keys.length
    · refine ⟨0, Nat.pos_of_ne_zero hlen, ?_, ?_, ?_, ?_, ?_⟩
      · intro k hk; exact absurd hk (Nat.not_lt_zero k)
      · refine Or.inr ⟨rfl, fun k hk => ?_⟩
        have := hbelow k (by rw [hwrap]; exact hk)
        simpa using this
      · rw [if_pos hwrap]
      · trivial
      · rw [if_pos hwrap]
        exact congrArg (fun o => Option.getD o 0) (alookup_aupsert_self _ _ _) |>.trans rfl
    · refine ⟨sortSearch m.keys.length (fun i => m.keys.getD i 0 ≥ hashFn key),
        lt_of_le_of_ne hle hwrap, ?_, ?_, ?_, ?_, ?_⟩
      · intro k hk
        have := hbelow k hk
        simpa using this
      · refine Or.inl ?_
        have := hat (lt_of_le_of_ne hle hwrap)
        simpa using this
      · rw [if_neg hwrap]
      · trivial
      · rw [if_neg hwrap]
        exact congrArg (fun o => Option.getD o 0) (alookup_aupsert_self _ _ _) |>.trans rfl

/-- Witness for the amended C5 theorem: for key "abcd" an empty ring
returns "" unchanged; on the ring with sorted keys [3, 9] owned by "A"
and "B", hash = byte length of the key, key "abcd" (hash 4), the first
index with keys[i] ≥ 4 is 1 and the owner is "B". -/
theorem C5_ring_get_routes_nonempty_key_witness :
    ("abcd" : String) ≠ "" ∧
    ([] : List Int).Sorted (· ≤ ·) ∧
    (ringGet (fun s => (s.length : Int))
        { keys := [], hashMap := [], nodeReplicas := [], nodeCounts := [],
          totalRequests := 0 } "abcd"
      = ("", { keys := [], hashMap := [], nodeReplicas := [],
                nodeCounts := [], totalRequests := 0 })) ∧
    ([3, 9] : List Int) ≠ [] ∧
    ([3, 9] : List Int).Sorted (· ≤ ·) ∧
    (∃ i, i < ([3, 9] : List Int).length ∧
      (∀ k, k < i → ¬ (([3, 9] : List Int).getD k 0 ≥ ((("abcd" : String).length : Int)))) ∧
      (([3, 9] : List Int).getD i 0 ≥ ((("abcd" : String).length : Int)) ∨
        (i = 0 ∧ ∀ k, k < ([3, 9] : List Int).length →
          ¬ (([3, 9] : List Int).getD k 0 ≥ ((("abcd" : String).length : Int))))) ∧
      (ringGet (fun s => (s.length : Int))
          { keys := [3, 9], hashMap := [(3, "A"), (9, "B")],
            nodeReplicas := [("A", 1), ("B", 1)], nodeCounts := [],
            totalRequests := 0 } "abcd").1
        = (alookup ([(3, "A"), (9, "B")] : List (Int × String))
            (([3, 9] : List Int).getD i 0)).getD "" ∧
      (ringGet (fun s => (s.length : Int))
          { keys := [3, 9], hashMap := [(3, "A"), (9, "B")],
            nodeReplicas := [("A", 1), ("B", 1)], nodeCounts := [],
            totalRequests := 0 } "abcd").2.totalRequests = 0 + 1 ∧
      (alookup (ringGet (fun s => (s.length : Int))
          { keys := [3, 9], hashMap := [(3, "A"), (9, "B")],
            nodeReplicas := [("A", 1), ("B", 1)], nodeCounts := [],
            totalRequests := 0 } "abcd").2.nodeCounts
          ((ringGet (fun s => (s.length : Int))
          { keys := [3, 9], hashMap := [(3, "A"), (9, "B")],
            nodeReplicas := [("A", 1), ("B", 1)], nodeCounts := [],
            totalRequests := 0 } "abcd").1)).getD 0
        = (alookup ([] : List (String × Int))
            ((ringGet (fun s => (s.length : Int))
          { keys := [3, 9], hashMap := [(3, "A"), (9, "B")],
            nodeReplicas := [("A", 1), ("B", 1)], nodeCounts := [],
            totalRequests := 0 } "abcd").1)).getD 0 + 1) :=
  ⟨by decide, by decide,
    (C5_ring_get_routes_nonempty_key (fun s => (s.length : Int))
      { keys := [], hashMap := [], nodeReplicas := [], nodeCounts := [],
        totalRequests := 0 } "abcd" (by decide) (by decide)).1 rfl,
    by decide, by decide,
    (C5_ring_get_routes_nonempty_key (fun s => (s.length : Int))
      { keys := [3, 9], hashMap := [(3, "A"), (9, "B")],
        nodeReplicas := [("A", 1), ("B", 1)], nodeCounts := [],
        totalRequests := 0 } "abcd" (by decide) (by decide)).2 (by decide)⟩

/-! ## Lemmas about the rebalancer -/

theorem alookup_aupsert_ne {α β : Type} [DecidableEq α] (l : List (α × β))
    (k k' : α) (v : β) (h : k ≠ k') :
    alookup (aupsert l k v) k' = alookup l k' := by
  induction l with
  | nil => simp [aupsert, alookup, h]
  | cons p t ih =>
    obtain ⟨a, b⟩ := p
    by_cases ha : a = k
    · subst ha
      simp [aupsert, alookup, h]
    · simp [aupsert, alookup, ha, ih]

theorem alookup_aerase_ne {α β : Type} [DecidableEq α] (l : List (α × β))
    (k k' : α) (h : k ≠ k') :
    alookup (aerase l k) k' = alookup l k' := by
  induction l with
  | nil => simp [aerase, alookup]
  | cons p t ih =>
    obtain ⟨a, b⟩ := p
    by_cases ha : a = k
    · subst ha
      have h1 : aerase ((a, b) :: t) a = aerase t a := by simp [aerase]
      have h2 : alookup ((a, b) :: t) k' = alookup t k' := by simp [alookup, h]
      rw [h1, h2]
      exact ih
    · have h1 : aerase ((a, b) :: t) k = (a, b) :: aerase t k := by simp [aerase, ha]
      rw [h1]
      show (if a = k' then some b else alookup (aerase t k) k')
        = (if a = k' then some b else alookup t k')
      rw [ih]

theorem dropHash_fold_nodeReplicas :
    ∀ (hs : List Int) (m : HashRing),
      (hs.foldl dropHash m).nodeReplicas = m.nodeReplicas := by
  intro hs
  induction hs with
  | nil => intro m; rfl
  | cons h t ih =>
    intro m
    simp only [List.foldl_cons]
    rw [ih]
    rfl

theorem removeNode_nodeReplicas (hashFn : String → Int) (m : HashRing)
    (node : String) (m1 : HashRing)
    (h : removeNode hashFn m node = some m1) :
    m1.nodeReplicas = aerase m.nodeReplicas node := by
  unfold removeNode at h
  by_cases h1 : node = ""
  · rw [if_pos h1] at h
    exact Option.noConfusion h
  · rw [if_neg h1] at h
    by_cases h2 : (alookup m.nodeReplicas node).getD 0 = 0
    · rw [if_pos h2] at h
      exact Option.noConfusion h
    · rw [if_neg h2] at h
      have := Option.some.inj h
      rw [← this]
      show aerase ((virtualHashes hashFn node _).foldl dropHash m).nodeReplicas node = _
      rw [dropHash_fold_nodeReplicas]

theorem rebalanceNode_preserves (cfg : RingConfig) (hashFn : String → Int)
    (avg : ℚ) (m : HashRing) (p : String × Int) (node : String)
    (hne : p.1 ≠ node) :
    alookup (rebalanceNode cfg hashFn avg m p).nodeReplicas node
      = alookup m.nodeReplicas node := by
  obtain ⟨pn, pc⟩ := p
  simp only at hne
  simp only [rebalanceNode]
  split
  · cases hrm : removeNode hashFn m pn with
    | none => simp [hrm]
    | some m1 =>
      simp only [hrm]
      show alookup (aupsert m1.nodeReplicas pn _) node = _
      rw [alookup_aupsert_ne _ _ _ _ hne,
        removeNode_nodeReplicas hashFn m pn m1 hrm, alookup_aerase_ne _ _ _ hne]
  · rfl

theorem rebalanceNode_self (cfg : RingConfig) (hashFn : String → Int)
    (avg : ℚ) (m : HashRing) (node : String) (count r : Int)
    (hnode : node ≠ "") (hr : alookup m.nodeReplicas node = some r) (hr0 : r ≠ 0) :
    alookup (rebalanceNode cfg hashFn avg m (node, count)).nodeReplicas node
      = some (rebalanceFormula cfg r count avg) := by
  have hget : (alookup m.nodeReplicas node).getD 0 = r := by rw [hr]; rfl
  simp only [rebalanceNode, hget]
  by_cases hch : rebalanceFormula cfg r count avg = r
  · rw [if_neg (fun hne => hne hch), hr, hch]
  · rw [if_pos hch]
    cases hrm : removeNode hashFn m node with
    | none =>
      exfalso
      unfold removeNode at hrm
      rw [if_neg hnode, hget, if_neg hr0] at hrm
      exact Option.noConfusion hrm
    | some m1 =>
      simp only [hrm]
      show alookup (aupsert m1.nodeReplicas node _) node = _
      rw [alookup_aupsert_self]

theorem rebalanceFold_preserves (cfg : RingConfig) (hashFn : String → Int) (avg : ℚ) :
    ∀ (pairs : List (String × Int)) (m : HashRing) (node : String),
      node ∉ pairs.map Prod.fst →
      alookup (pairs.foldl (rebalanceNode cfg hashFn avg) m).nodeReplicas node
        = alookup m.nodeReplicas node := by
  intro pairs
  induction pairs with
  | nil => intro m node _; rfl
  | cons p t ih =>
    intro m node hnot
    simp only [List.map_cons, List.mem_cons, not_or] at hnot
    simp only [List.foldl_cons]
    rw [ih _ _ hnot.2, rebalanceNode_preserves _ _ _ _ _ _ (fun h => hnot.1 h.symm)]

theorem rebalanceFold_lookup (cfg : RingConfig) (hashFn : String → Int) (avg : ℚ) :
    ∀ (pairs : List (String × Int)) (m : HashRing) (node : String) (count r : Int),
      (node, count) ∈ pairs → (pairs.map Prod.fst).Nodup → node ≠ "" →
      alookup m.nodeReplicas node = some r → r ≠ 0 →
      alookup (pairs.foldl (rebalanceNode cfg hashFn avg) m).nodeReplicas node
        = some (rebalanceFormula cfg r count avg) := by
  intro pairs
  induction pairs with
  | nil =>
    intro m node count r hmem
    exact absurd hmem (List.not_mem_nil _)
  | cons p t ih =>
    intro m node count r hmem hnodup hnode hr hr0
    simp only [List.map_cons, List.nodup_cons] at hnodup
    simp only [List.foldl_cons]
    rcases List.mem_cons.mp hmem with heq | hmem'
    · obtain rfl := heq.symm
      rw [rebalanceFold_preserves cfg hashFn avg t _ node hnodup.1,
        rebalanceNode_self cfg hashFn avg m node count r hnode hr hr0]
    · have hp1 : p.1 ≠ node := by
        intro h
        exact hnodup.1 (h ▸ List.mem_map.mpr ⟨(node, count), hmem', rfl⟩)
      exact ih _ node count r hmem' hnodup.2 hnode
        (by rw [rebalanceNode_preserves _ _ _ _ _ _ hp1]; exact hr) hr0

theorem ratTrunc_eq_floor {q : ℚ} (h : 0 ≤ q) : ratTrunc q = ⌊q⌋ := by
  rw [Rat.floor_def]
  exact Int.tdiv_eq_ediv (Rat.num_nonneg.mpr h) (Int.natCast_nonneg _)

theorem rebalanceFormula_eq_spec (cfg : RingConfig) (r count : Int) (avg : ℚ)
    (havg : 0 < avg) (hcount : 0 ≤ count) (hr : 0 ≤ r) :
    rebalanceFormula cfg r count avg = specRebalanceReplicas cfg r count avg := by
  simp only [rebalanceFormula, specRebalanceReplicas]
  by_cases hl : ((count : ℚ) / avg) > 1
  · have hA : (0 : ℚ) ≤ (r : ℚ) / ((count : ℚ) / avg) :=
      div_nonneg (by exact_mod_cast hr) (le_of_lt (lt_trans zero_lt_one hl))
    rw [if_pos hl, if_pos hl, ratTrunc_eq_floor hA]
  · have hratio : (0 : ℚ) ≤ (count : ℚ) / avg :=
      div_nonneg (by exact_mod_cast hcount) (le_of_lt havg)
    have hB : (0 : ℚ) ≤ (r : ℚ) * (2 - (count : ℚ) / avg) := by
      apply mul_nonneg (by exact_mod_cast hr)
      have : (count : ℚ) / avg ≤ 1 := not_lt.mp hl
      linarith
    rw [if_neg hl, if_neg hl, ratTrunc_eq_floor hB]

/-- C8 counterexample: two nodes with 10 replicas each, counts 600 and
400 over 1000 requests, threshold 0.5.  totalRequests ≥ 1000, yet
checkAndRebalance changes nothing because maxDiff = 1/5 stays below the
threshold — a gate the claim omits — while the claim's formula demands
floor(10 / (600/500)) = 8 ≠ 10 replicas for the first node. -/
theorem C8_threshold_gate_counterexample :
    checkAndRebalance
        { defaultReplicas := 10, minReplicas := 1, maxReplicas := 100,
          loadBalanceThreshold := 1/2 } (fun _ => 0)
        { keys := [], hashMap := [], nodeReplicas := [("A", 10), ("B", 10)],
          nodeCounts := [("A", 600), ("B", 400)], totalRequests := 1000 }
      = { keys := [], hashMap := [], nodeReplicas := [("A", 10), ("B", 10)],
          nodeCounts := [("A", 600), ("B", 400)], totalRequests := 1000 } ∧
    rebalanceFormula
        { defaultReplicas := 10, minReplicas := 1, maxReplicas := 100,
          loadBalanceThreshold := 1/2 } 10 600 ((1000 : ℚ) / 2) = 8 ∧
    (8 : Int) ≠ 10 := by
  refine ⟨?_, ?_, by decide⟩
  · unfold checkAndRebalance
    rw [if_neg (by decide), if_neg (by norm_num [maxDiffFold])]
  · simp only [rebalanceFormula]
    rw [if_pos (by norm_num : ((600 : Int) : ℚ) / ((1000 : ℚ) / 2) > 1)]
    rw [ratTrunc_eq_floor (by norm_num)]
    norm_num

/-- C8 (amended).  checkAndRebalance changes nothing when
totalRequests < 1000, and also — a condition the original claim omits —
when the maximal relative deviation does not exceed the configured
threshold.  When both gates pass, every nodeCounts entry (with a known
non-zero replica count and a non-empty name, under distinct node names)
ends with exactly the clamped replica target of the code; a node whose
target equals its current count is left untouched by its loop iteration;
and for non-negative counts and a positive average the code's
truncating formula coincides with the floor formula of the spec. -/
theorem C8_checkAndRebalance_spec (cfg : RingConfig) (hashFn : String → Int)
    (m : HashRing) (node : String) (count r : Int) :
    (m.totalRequests < 1000 → checkAndRebalance cfg hashFn m = m) ∧
    (¬ m.totalRequests < 1000 →
      ¬ maxDiffFold m.nodeCounts ((m.totalRequests : ℚ) / (m.nodeReplicas.length : ℚ))
          > cfg.loadBalanceThreshold →
      checkAndRebalance cfg hashFn m = m) ∧
    (¬ m.totalRequests < 1000 →
      maxDiffFold m.nodeCounts ((m.totalRequests : ℚ) / (m.nodeReplicas.length : ℚ))
          > cfg.loadBalanceThreshold →
      (node, count) ∈ m.nodeCounts → (m.nodeCounts.map Prod.fst).Nodup →
      node ≠ "" → alookup m.nodeReplicas node = some r → r ≠ 0 →
      alookup (checkAndRebalance cfg hashFn m).nodeReplicas node
        = some (rebalanceFormula cfg r count
            ((m.totalRequests : ℚ) / (m.nodeReplicas.length : ℚ)))) ∧
    (rebalanceFormula cfg ((alookup m.nodeReplicas node).getD 0) count
          ((m.totalRequests : ℚ) / (m.nodeReplicas.length : ℚ))
        = (alookup m.nodeReplicas node).getD 0 →
      rebalanceNode cfg hashFn ((m.totalRequests : ℚ) / (m.nodeReplicas.length : ℚ))
        m (node, count) = m) ∧
    (0 < ((m.totalRequests : ℚ) / (m.nodeReplicas.length : ℚ)) → 0 ≤ count → 0 ≤ r →
      rebalanceFormula cfg r count ((m.totalRequests : ℚ) / (m.nodeReplicas.length : ℚ))
        = specRebalanceReplicas cfg r count
            ((m.totalRequests : ℚ) / (m.nodeReplicas.length : ℚ))) := by
  refine ⟨fun h1 => ?_, fun h1 h2 => ?_, fun h1 h2 hmem hnodup hnode hr hr0 => ?_,
    fun hch => ?_, fun havg hc hr' => rebalanceFormula_eq_spec cfg r count _ havg hc hr'⟩
  · unfold checkAndRebalance
    rw [if_pos h1]
  · unfold checkAndRebalance
    rw [if_neg h1, if_neg h2]
  · unfold checkAndRebalance
    rw [if_neg h1, if_pos h2]
    unfold rebalanceNodes
    show alookup (m.nodeCounts.foldl _ m).nodeReplicas node = _
    exact rebalanceFold_lookup cfg hashFn _ m.nodeCounts m node count r
      hmem hnodup hnode hr hr0
  · simp only [rebalanceNode]
    rw [if_neg (fun hne => hne hch)]

/-- Witness for the amended C8 theorem: nodes A and B with 10 replicas
each, counts 900 and 100 over 1000 requests, threshold 0.5.  The
deviation 4/5 passes the gate, so node A ends with the clamped truncated
target for load ratio 900/500. -/
theorem C8_checkAndRebalance_spec_witness :
    (¬ (1000 : Int) < 1000) ∧
    maxDiffFold [("A", 900), ("B", 100)] (((1000 : Int) : ℚ) / ((2 : Nat) : ℚ))
      > (1 : ℚ)/2 ∧
    (("A", (900 : Int)) ∈ [("A", (900 : Int)), ("B", 100)]) ∧
    (([("A", (900 : Int)), ("B", 100)].map Prod.fst).Nodup) ∧
    ("A" : String) ≠ "" ∧
    alookup [("A", (10 : Int)), ("B", 10)] "A" = some 10 ∧
    ((10 : Int) ≠ 0) ∧
    alookup (checkAndRebalance
        { defaultReplicas := 10, minReplicas := 1, maxReplicas := 100,
          loadBalanceThreshold := 1/2 } (fun _ => 0)
        { keys := [], hashMap := [], nodeReplicas := [("A", 10), ("B", 10)],
          nodeCounts := [("A", 900), ("B", 100)], totalRequests := 1000 }).nodeReplicas "A"
      = some (rebalanceFormula
          { defaultReplicas := 10, minReplicas := 1, maxReplicas := 100,
            loadBalanceThreshold := 1/2 } 10 900
          (((1000 : Int) : ℚ) / ((2 : Nat) : ℚ))) :=
  ⟨by decide, by norm_num [maxDiffFold], by decide, by decide, by decide, by decide,
    by decide,
    (C8_checkAndRebalance_spec
        { defaultReplicas := 10, minReplicas := 1, maxReplicas := 100,
          loadBalanceThreshold := 1/2 } (fun _ => 0)
        { keys := [], hashMap := [], nodeReplicas := [("A", 10), ("B", 10)],
          nodeCounts := [("A", 900), ("B", 100)], totalRequests := 1000 }
        "A" 900 10).2.2.1 (by decide) (by norm_num [maxDiffFold]) (by decide)
      (by decide) (by decide) (by decide) (by decide)⟩

/-! ## Lemmas about the LRU-2 store -/

theorem adjust_hmap (c : L2Cache) (idx f t : Nat) :
    (adjust c idx f t).hmap = c.hmap := by
  unfold adjust
  split <;> rfl

theorem adjust_m (c : L2Cache) (idx f t : Nat) :
    (adjust c idx f t).m = c.m := by
  unfold adjust
  split <;> rfl

theorem getD_set_self {α : Type} (v d : α) :
    ∀ (l : List α) (i : Nat), i < l.length → (l.set i v).getD i d = v := by
  intro l
  induction l with
  | nil => intro i h; simp at h
  | cons a t ih =>
    intro i h
    cases i with
    | zero => rfl
    | succ u => exact ih u (by simpa using h)

theorem alookup_some_mem {α β : Type} [DecidableEq α] :
    ∀ (l : List (α × β)) (k : α) (v : β), alookup l k = some v → (k, v) ∈ l := by
  intro l
  induction l with
  | nil => intro k v h; simp [alookup] at h
  | cons p t ih =>
    intro k v h
    obtain ⟨a, b⟩ := p
    by_cases ha : a = k
    · subst ha
      simp only [alookup, if_pos rfl] at h
      obtain rfl := Option.some.inj h
      exact List.mem_cons_self _ _
    · simp only [alookup, if_neg ha] at h
      exact List.mem_cons_of_mem _ (ih k v h)

theorem l2put_lookup (c : L2Cache) (key val : Bytes) (e : Int) (hwf : L2Wf c) :
    ∃ j, 1 ≤ j ∧ j ≤ c.m.length ∧
      alookup (l2put c key val e).hmap key = some j ∧
      (l2put c key val e).m.getD (j - 1) default = ⟨key, val, e⟩ := by
  obtain ⟨hlast, hforward, hback, htail⟩ := hwf
  cases hlook : alookup c.hmap key with
  | some idx =>
    have hred : l2put c key val e =
        adjust
          { c with m := (c.m.set (idx - 1)
              { c.m.getD (idx - 1) default with v := val, expireAt := e }) }
          idx 0 1 := by
      unfold l2put
      rw [hlook]
    obtain ⟨h1, h2, h3⟩ := hforward _ (alookup_some_mem _ _ _ hlook)
    refine ⟨idx, h1, le_trans h2 hlast, ?_, ?_⟩
    · rw [hred, adjust_hmap]
      exact hlook
    · rw [hred, adjust_m]
      show (c.m.set (idx - 1)
          { c.m.getD (idx - 1) default with v := val, expireAt := e }).getD
          (idx - 1) default = _
      rw [getD_set_self _ _ _ _ (by omega : idx - 1 < c.m.length)]
      cases hnd : c.m.getD (idx - 1) default with
      | mk k0 v0 e0 =>
        rw [hnd] at h3
        simp only at h3
        rw [h3]
  | none =>
    by_cases hfull : c.last = c.m.length
    · have hred : l2put c key val e =
          adjust
            { c with
                hmap := aupsert (aerase c.hmap
                          (c.m.getD (dget c.dlnk 0 0 - 1) default).k)
                          key (dget c.dlnk 0 0)
                m := c.m.set (dget c.dlnk 0 0 - 1) ⟨key, val, e⟩ }
            (dget c.dlnk 0 0) 0 1 := by
        unfold l2put
        rw [hlook, if_pos hfull]
      obtain ⟨ht1, ht2⟩ := htail hfull
      refine ⟨dget c.dlnk 0 0, ht1, le_trans ht2 hlast, ?_, ?_⟩
      · rw [hred, adjust_hmap]
        show alookup (aupsert (aerase c.hmap _) key (dget c.dlnk 0 0)) key = _
        rw [alookup_aupsert_self]
      · rw [hred, adjust_m]
        show (c.m.set (dget c.dlnk 0 0 - 1) ⟨key, val, e⟩).getD
            (dget c.dlnk 0 0 - 1) default = _
        rw [getD_set_self _ _ _ _ (by omega : dget c.dlnk 0 0 - 1 < c.m.length)]
    · have hlt : c.last < c.m.length := lt_of_le_of_ne hlast hfull
      have hred : (l2put c key val e).hmap = aupsert c.hmap key (c.last + 1) ∧
          (l2put c key val e).m = c.m.set c.last ⟨key, val, e⟩ := by
        unfold l2put
        rw [hlook, if_neg hfull]
        exact ⟨rfl, rfl⟩
      refine ⟨c.last + 1, by omega, by omega, ?_, ?_⟩
      · rw [hred.1, alookup_aupsert_self]
      · rw [hred.2]
        show (c.m.set c.last ⟨key, val, e⟩).getD c.last default = _
        rw [getD_set_self _ _ _ _ hlt]

theorem liveIn_l2put (c : L2Cache) (key val : Bytes) (e : Int)
    (hwf : L2Wf c) (he : 0 < e) :
    liveIn (l2put c key val e) key = true := by
  obtain ⟨j, _, _, h3, h4⟩ := l2put_lookup c key val e hwf
  unfold liveIn
  rw [h3]
  show decide (((l2put c key val e).m.getD (j - 1) default).expireAt > 0) = true
  rw [h4]
  exact decide_eq_true he

/-- C7.  When lru2Store.Get finds the key live in the admission level of
its shard and the entry is not expired at the virtual-clock instant, the
call tombstones the admission slot (the key is no longer live there),
puts the node into the main level preserving its value and expiry, and
returns (value, true); a key Get-accessed twice without intervening
eviction therefore resides in the main level. -/
theorem C7_get_promotes_admission_hit (c0 c1 : L2Cache) (key : Bytes) (now : Int)
    (i : Nat) (hwf0 : L2Wf c0) (hwf1 : L2Wf c1)
    (hlook : alookup c0.hmap key = some i)
    (hlive : (c0.m.getD (i - 1) default).expireAt > 0)
    (hnotexp : now < (c0.m.getD (i - 1) default).expireAt) :
    (lru2ShardGet c0 c1 key now).1
        = (some (c0.m.getD (i - 1) default).v, true) ∧
    liveIn (lru2ShardGet c0 c1 key now).2.1 key = false ∧
    (∃ j, 1 ≤ j ∧ j ≤ c1.m.length ∧
      alookup (lru2ShardGet c0 c1 key now).2.2.hmap key = some j ∧
      (lru2ShardGet c0 c1 key now).2.2.m.getD (j - 1) default
        = ⟨key, (c0.m.getD (i - 1) default).v,
            (c0.m.getD (i - 1) default).expireAt⟩) := by
  obtain ⟨hlast0, hforward0, _, _⟩ := hwf0
  obtain ⟨hi1, hi2, _⟩ := hforward0 _ (alookup_some_mem _ _ _ hlook)
  have hdel : l2del c0 key =
      (adjust
          { c0 with m := (c0.m.set (i - 1)
              { c0.m.getD (i - 1) default with expireAt := 0 }) }
          i 1 0,
        some ((c0.m.getD (i - 1) default).v,
          (c0.m.getD (i - 1) default).expireAt)) := by
    simp only [l2del, hlook]
    rw [if_pos hlive]
  simp only [lru2ShardGet, hdel]
  rw [if_neg (fun h => absurd h.2 (not_le.mpr hnotexp))]
  refine ⟨rfl, ?_, ?_⟩
  · unfold liveIn
    rw [show (adjust
        { c0 with m := (c0.m.set (i - 1)
            { c0.m.getD (i - 1) default with expireAt := 0 }) } i 1 0).hmap
        = c0.hmap from adjust_hmap _ _ _ _]
    rw [hlook]
    show decide (((adjust
        { c0 with m := (c0.m.set (i - 1)
            { c0.m.getD (i - 1) default with expireAt := 0 }) } i 1 0).m.getD
        (i - 1) default).expireAt > 0) = false
    rw [adjust_m]
    show decide (((c0.m.set (i - 1)
        { c0.m.getD (i - 1) default with expireAt := 0 }).getD
        (i - 1) default).expireAt > 0) = false
    rw [getD_set_self _ _ _ _ (by omega : i - 1 < c0.m.length)]
    rfl
  · exact l2put_lookup c1 key _ _ hwf1

/-- Witness for C7 at a concrete input: key "a" (byte 97) set once into a
4-slot admission level with expireAt 100, main level empty, virtual clock
at 0. -/
theorem C7_get_promotes_admission_hit_witness :
    L2Wf (l2put (l2Create 4) [97] [5] 100) ∧
    L2Wf (l2Create 4) ∧
    alookup (l2put (l2Create 4) [97] [5] 100).hmap [97] = some 1 ∧
    ((l2put (l2Create 4) [97] [5] 100).m.getD 0 default).expireAt > 0 ∧
    (0 : Int) < ((l2put (l2Create 4) [97] [5] 100).m.getD 0 default).expireAt ∧
    ((lru2ShardGet (l2put (l2Create 4) [97] [5] 100) (l2Create 4) [97] 0).1
        = (some ((l2put (l2Create 4) [97] [5] 100).m.getD 0 default).v, true) ∧
      liveIn (lru2ShardGet (l2put (l2Create 4) [97] [5] 100)
          (l2Create 4) [97] 0).2.1 [97] = false ∧
      (∃ j, 1 ≤ j ∧ j ≤ (l2Create 4).m.length ∧
        alookup (lru2ShardGet (l2put (l2Create 4) [97] [5] 100)
            (l2Create 4) [97] 0).2.2.hmap [97] = some j ∧
        (lru2ShardGet (l2put (l2Create 4) [97] [5] 100)
            (l2Create 4) [97] 0).2.2.m.getD (j - 1) default
          = ⟨[97], ((l2put (l2Create 4) [97] [5] 100).m.getD 0 default).v,
              ((l2put (l2Create 4) [97] [5] 100).m.getD 0 default).expireAt⟩)) :=
  ⟨by decide, by decide, by decide, by decide, by decide,
    C7_get_promotes_admission_hit (l2put (l2Create 4) [97] [5] 100) (l2Create 4)
      [97] 0 1 (by decide) (by decide) (by decide) (by decide) (by decide)⟩

/-- C2 counterexample: one shard, caps 4/4.  Set "a" (default huge TTL),
Get "a" (promotes it to the main level), Set "a" again.  The second Set
only touches the admission level, so "a" is live in both levels of its
shard at a quiescent point, violating the at-most-one-level claim. -/
theorem C2_live_in_both_levels :
    liveIn ((lru2Set ((lru2Get (lru2Set (newLRU2Store 1 4 4) [97] [1] 0)
          [97] 0).2) [97] [2] 0).caches.getD 0 (l2Create 0, l2Create 0)).1
        [97] = true ∧
    liveIn ((lru2Set ((lru2Get (lru2Set (newLRU2Store 1 4 4) [97] [1] 0)
          [97] 0).2) [97] [2] 0).caches.getD 0 (l2Create 0, l2Create 0)).2
        [97] = true := by
  decide

/-- C2 (amended).  lru2Store.SetWithExpiration writes the admission level
only: on a key currently live in the main level, a Set (with a live
expiry) leaves the main level untouched — it is not updated in place —
and makes the key live in admission too, so the key is live in both
levels of its shard. -/
theorem C2_set_on_main_resident_duplicates (c0 c1 : L2Cache) (key val : Bytes)
    (expireAt : Int) (hwf0 : L2Wf c0) (hlive1 : liveIn c1 key = true)
    (he : 0 < expireAt) :
    liveIn (lru2ShardSet c0 c1 key val expireAt).1 key = true ∧
    (lru2ShardSet c0 c1 key val expireAt).2 = c1 ∧
    liveIn (lru2ShardSet c0 c1 key val expireAt).2 key = true :=
  ⟨liveIn_l2put c0 key val expireAt hwf0 he, rfl, hlive1⟩

/-- Witness for the amended C2 theorem: empty admission level, key "a"
live in the main level with expiry 5, Set with expiry 7. -/
theorem C2_set_on_main_resident_duplicates_witness :
    L2Wf (l2Create 4) ∧
    liveIn (l2put (l2Create 4) [97] [1] 5) [97] = true ∧
    ((0 : Int) < 7) ∧
    (liveIn (lru2ShardSet (l2Create 4) (l2put (l2Create 4) [97] [1] 5)
        [97] [2] 7).1 [97] = true ∧
      (lru2ShardSet (l2Create 4) (l2put (l2Create 4) [97] [1] 5)
        [97] [2] 7).2 = l2put (l2Create 4) [97] [1] 5 ∧
      liveIn (lru2ShardSet (l2Create 4) (l2put (l2Create 4) [97] [1] 5)
        [97] [2] 7).2 [97] = true) :=
  ⟨by decide, by decide, by decide,
    C2_set_on_main_resident_duplicates (l2Create 4) (l2put (l2Create 4) [97] [1] 5)
      [97] [2] 7 (by decide) (by decide) (by decide)⟩

/-! ## Lemmas about single-flight -/

theorem sfInv_init (fval : Nat → Nat) : SFInv fval sfInit := by
  refine ⟨?_, ?_, ?_, ?_, ?_, ?_, ?_, ?_⟩
  · intro t; exact Or.inl rfl
  · intro t h; exact absurd h (by simp [sfInit])
  · intro t h
    rcases h with h | h <;> exact absurd h (by simp [sfInit])
  · intro P h; exact absurd h (by simp [sfInit])
  · intro t _; exact ⟨rfl, rfl⟩
  · intro t P h; exact absurd h (by simp [sfInit])
  · intro t P h; exact absurd h (by simp [sfInit])
  · intro t r h; exact absurd h (by simp [sfInit])

theorem sfInv_step (fval : Nat → Nat) (cfg : SFConfig) (t : Nat)
    (h : SFInv fval cfg) : SFInv fval (sfStep fval cfg t) := by
  obtain ⟨h1, h2, h3, h5, h0, h8, h4, h7⟩ := h
  cases hpc : (cfg.threads t).pc with
  | start =>
    cases hslot : cfg.slot with
    | some prod =>
      have hprodt : prod ≠ t := by
        intro he
        subst he
        rcases h5 prod hslot with hp | hp | hp <;> rw [hpc] at hp <;> simp at hp
      simp only [sfStep, hpc, hslot]
      unfold SFInv
      dsimp only
      refine ⟨h1, ?_, ?_, ?_, ?_, ?_, ?_, ?_⟩
      · intro u hu
        by_cases hut : u = t
        · subst hut
          rw [Function.update_same]
          exact h2 u hu
        · rw [Function.update_noteq hut]
          exact h2 u hu
      · intro u hu
        by_cases hut : u = t
        · subst hut
          rw [Function.update_same] at hu
          rcases hu with hu | hu <;> simp at hu
        · rw [Function.update_noteq hut] at hu
          rw [Function.update_noteq hut]
          exact h3 u hu
      · intro P hP
        have hPp : P = prod := (Option.some.inj hP).symm
        subst hPp
        rw [Function.update_noteq hprodt]
        exact h5 P hslot
      · intro u hu
        by_cases hut : u = t
        · subst hut
          rw [Function.update_same] at hu
          simp at hu
        · rw [Function.update_noteq hut] at hu
          rw [Function.update_noteq hut]
          exact h0 u hu
      · intro u P hu
        by_cases hut : u = t
        · subst hut
          rw [Function.update_same] at hu ⊢
          have hP : P = prod := by simpa using hu.symm
          subst hP
          rfl
        · rw [Function.update_noteq hut] at hu
          rw [Function.update_noteq hut]
          exact h8 u P hu
      · intro u P hu
        by_cases hut : u = t
        · subst hut
          rw [Function.update_same] at hu
          have hP : P = prod := by simpa using hu.symm
          subst hP
          refine ⟨?_, ?_, ?_, ?_⟩
          · rw [Function.update_same]
            exact (h0 u hpc).1
          · rw [Function.update_noteq hprodt]
            rcases h5 P hslot with hp | hp | hp <;> rw [hp] <;> simp
          · rw [Function.update_noteq hprodt]
            rcases h5 P hslot with hp | hp | hp <;> rw [hp] <;> simp
          · left
            rw [Function.update_same]
        · rw [Function.update_noteq hut] at hu
          obtain ⟨hdi, hns, hni, hlast⟩ := h4 u P hu
          refine ⟨?_, ?_, ?_, ?_⟩
          · rw [Function.update_noteq hut]
            exact hdi
          · by_cases hPt : P = t
            · subst hPt
              rw [Function.update_same]
              simp
            · rw [Function.update_noteq hPt]
              exact hns
          · by_cases hPt : P = t
            · subst hPt
              rw [Function.update_same]
              simp
            · rw [Function.update_noteq hPt]
              exact hni
          · rw [Function.update_noteq hut]
            exact hlast
      · intro u r hu hj
        by_cases hut : u = t
        · subst hut
          rw [Function.update_same] at hu
          simp at hu
        · rw [Function.update_noteq hut] at hu hj
          rw [Function.update_noteq hut]
          exact h7 u r hu hj
    | none =>
      simp only [sfStep, hpc, hslot]
      unfold SFInv
      dsimp only
      refine ⟨h1, ?_, ?_, ?_, ?_, ?_, ?_, ?_⟩
      · intro u hu
        by_cases hut : u = t
        · subst hut
          rw [Function.update_same]
          exact h2 u hu
        · rw [Function.update_noteq hut]
          exact h2 u hu
      · intro u hu
        by_cases hut : u = t
        · subst hut
          rw [Function.update_same] at hu
          rcases hu with hu | hu <;> simp at hu
        · rw [Function.update_noteq hut] at hu
          rw [Function.update_noteq hut]
          exact h3 u hu
      · intro P hP
        exact Option.noConfusion hP
      · intro u hu
        by_cases hut : u = t
        · subst hut
          rw [Function.update_same] at hu
          simp at hu
        · rw [Function.update_noteq hut] at hu
          rw [Function.update_noteq hut]
          exact h0 u hu
      · intro u P hu
        by_cases hut : u = t
        · subst hut
          rw [Function.update_same] at hu
          simp at hu
        · rw [Function.update_noteq hut] at hu
          rw [Function.update_noteq hut]
          exact h8 u P hu
      · intro u P hu
        by_cases hut : u = t
        · subst hut
          rw [Function.update_same] at hu
          have hthis : (cfg.threads u).joined = some P := hu
          rw [(h0 u hpc).2] at hthis
          exact Option.noConfusion hthis
        · rw [Function.update_noteq hut] at hu
          obtain ⟨hdi, hns, hni, hlast⟩ := h4 u P hu
          refine ⟨?_, ?_, ?_, ?_⟩
          · rw [Function.update_noteq hut]
            exact hdi
          · by_cases hPt : P = t
            · subst hPt
              exact absurd hpc hns
            · rw [Function.update_noteq hPt]
              exact hns
          · by_cases hPt : P = t
            · subst hPt
              exact absurd hpc hns
            · rw [Function.update_noteq hPt]
              exact hni
          · rw [Function.update_noteq hut]
            exact hlast
      · intro u r hu hj
        by_cases hut : u = t
        · subst hut
          rw [Function.update_same] at hu
          simp at hu
        · rw [Function.update_noteq hut] at hu hj
          rw [Function.update_noteq hut]
          exact h7 u r hu hj
  | install =>
    have hjt : (cfg.threads t).joined = none := by
      cases hj : (cfg.threads t).joined with
      | none => rfl
      | some P =>
        obtain ⟨_, _, _, hlast⟩ := h4 t P hj
        rcases hlast with hl | hl
        · rw [hpc] at hl; exact absurd hl (by simp)
        · rw [hpc] at hl; exact absurd hl.1 (by simp)
    simp only [sfStep, hpc]
    unfold SFInv
    dsimp only
    refine ⟨?_, ?_, ?_, ?_, ?_, ?_, ?_, ?_⟩
    · intro u
      by_cases hut : u = t
      · subst hut
        rw [Function.update_same]
        exact Or.inl rfl
      · rw [Function.update_noteq hut]
        exact h1 u
    · intro u hu
      by_cases hut : u = t
      · subst hut
        rw [Function.update_same] at hu
        simp at hu
      · rw [Function.update_noteq hut] at hu
        rw [Function.update_noteq hut, Function.update_noteq hut]
        exact h2 u hu
    · intro u hu
      by_cases hut : u = t
      · subst hut
        rw [Function.update_same] at hu
        rcases hu with hu | hu <;> simp at hu
      · rw [Function.update_noteq hut] at hu
        rw [Function.update_noteq hut, Function.update_noteq hut]
        exact h3 u hu
    · intro P hP
      have hPt : P = t := (Option.some.inj hP).symm
      subst hPt
      rw [Function.update_same]
      exact Or.inl rfl
    · intro u hu
      by_cases hut : u = t
      · subst hut
        rw [Function.update_same] at hu
        simp at hu
      · rw [Function.update_noteq hut] at hu
        rw [Function.update_noteq hut]
        exact h0 u hu
    · intro u P hu
      by_cases hut : u = t
      · subst hut
        rw [Function.update_same] at hu
        simp at hu
      · rw [Function.update_noteq hut] at hu
        rw [Function.update_noteq hut]
        exact h8 u P hu
    · intro u P hu
      by_cases hut : u = t
      · subst hut
        rw [Function.update_same] at hu
        have : (cfg.threads u).joined = some P := hu
        rw [hjt] at this
        exact Option.noConfusion this
      · rw [Function.update_noteq hut] at hu
        obtain ⟨hdi, hns, hni, hlast⟩ := h4 u P hu
        refine ⟨?_, ?_, ?_, ?_⟩
        · rw [Function.update_noteq hut]
          exact hdi
        · by_cases hPt : P = t
          · subst hPt
            exact absurd hpc hni
          · rw [Function.update_noteq hPt]
            exact hns
        · by_cases hPt : P = t
          · subst hPt
            exact absurd hpc hni
          · rw [Function.update_noteq hPt]
            exact hni
        · rw [Function.update_noteq hut]
          rcases hlast with hl | hl
          · exact Or.inl hl
          · refine Or.inr ⟨hl.1, ?_⟩
            by_cases hPt : P = t
            · exact absurd hpc (hPt ▸ hni)
            · rw [Function.update_noteq hPt]
              exact hl.2
    · intro u r hu hj
      by_cases hut : u = t
      · subst hut
        rw [Function.update_same] at hu
        simp at hu
      · rw [Function.update_noteq hut] at hu hj
        rw [Function.update_noteq hut]
        exact h7 u r hu hj
  | run =>
    simp only [sfStep, hpc]
    unfold SFInv
    dsimp only
    refine ⟨?_, ?_, ?_, ?_, ?_, ?_, ?_, ?_⟩
    · intro u
      by_cases hut : u = t
      · subst hut
        rw [Function.update_same]
        exact Or.inr rfl
      · rw [Function.update_noteq hut]
        exact h1 u
    · intro u hu
      by_cases hut : u = t
      · subst hut
        rw [Function.update_same, Function.update_same]
        exact ⟨rfl, rfl⟩
      · rw [Function.update_noteq hut] at hu
        rw [Function.update_noteq hut, Function.update_noteq hut]
        exact h2 u hu
    · intro u hu
      by_cases hut : u = t
      · subst hut
        rw [Function.update_same, Function.update_same]
        exact ⟨rfl, rfl⟩
      · rw [Function.update_noteq hut] at hu
        rw [Function.update_noteq hut, Function.update_noteq hut]
        exact h3 u hu
    · intro P hP
      by_cases hPt : P = t
      · subst hPt
        rw [Function.update_same]
        exact Or.inr (Or.inl rfl)
      · rw [Function.update_noteq hPt]
        exact h5 P hP
    · intro u hu
      by_cases hut : u = t
      · subst hut
        rw [Function.update_same] at hu
        simp at hu
      · rw [Function.update_noteq hut] at hu
        rw [Function.update_noteq hut]
        exact h0 u hu
    · intro u P hu
      by_cases hut : u = t
      · subst hut
        rw [Function.update_same] at hu
        simp at hu
      · rw [Function.update_noteq hut] at hu
        rw [Function.update_noteq hut]
        exact h8 u P hu
    · intro u P hu
      by_cases hut : u = t
      · subst hut
        rw [Function.update_same] at hu
        have hj' : (cfg.threads u).joined = some P := hu
        obtain ⟨_, _, _, hlast⟩ := h4 u P hj'
        rcases hlast with hl | hl
        · rw [hpc] at hl
          simp at hl
        · have hl1 := hl.1
          rw [hpc] at hl1
          simp at hl1
      · rw [Function.update_noteq hut] at hu
        obtain ⟨hdi, hns, hni, hlast⟩ := h4 u P hu
        refine ⟨?_, ?_, ?_, ?_⟩
        · rw [Function.update_noteq hut]
          exact hdi
        · by_cases hPt : P = t
          · subst hPt
            rw [Function.update_same]
            simp
          · rw [Function.update_noteq hPt]
            exact hns
        · by_cases hPt : P = t
          · subst hPt
            rw [Function.update_same]
            simp
          · rw [Function.update_noteq hPt]
            exact hni
        · rw [Function.update_noteq hut]
          rcases hlast with hl | hl
          · exact Or.inl hl
          · refine Or.inr ⟨hl.1, ?_⟩
            by_cases hPt : P = t
            · subst hPt
              rw [Function.update_same]
              exact hl.2
            · rw [Function.update_noteq hPt]
              exact hl.2
    · intro u r hu hj
      by_cases hut : u = t
      · subst hut
        rw [Function.update_same] at hu
        simp at hu
      · rw [Function.update_noteq hut] at hu hj
        rw [Function.update_noteq hut]
        exact h7 u r hu hj
  | finish =>
    simp only [sfStep, hpc]
    unfold SFInv
    dsimp only
    refine ⟨?_, ?_, ?_, ?_, ?_, ?_, ?_, ?_⟩
    · intro u
      by_cases hut : u = t
      · subst hut
        rw [Function.update_same]
        exact h1 u
      · rw [Function.update_noteq hut]
        exact h1 u
    · intro u hu
      by_cases hut : u = t
      · subst hut
        rw [Function.update_same, Function.update_same]
        exact h3 u (Or.inl hpc)
      · rw [Function.update_noteq hut] at hu
        rw [Function.update_noteq hut, Function.update_noteq hut]
        exact h2 u hu
    · intro u hu
      by_cases hut : u = t
      · subst hut
        rw [Function.update_same, Function.update_same]
        exact h3 u (Or.inl hpc)
      · rw [Function.update_noteq hut] at hu
        rw [Function.update_noteq hut, Function.update_noteq hut]
        exact h3 u hu
    · intro P hP
      by_cases hPt : P = t
      · subst hPt
        rw [Function.update_same]
        exact Or.inr (Or.inr rfl)
      · rw [Function.update_noteq hPt]
        exact h5 P hP
    · intro u hu
      by_cases hut : u = t
      · subst hut
        rw [Function.update_same] at hu
        simp at hu
      · rw [Function.update_noteq hut] at hu
        rw [Function.update_noteq hut]
        exact h0 u hu
    · intro u P hu
      by_cases hut : u = t
      · subst hut
        rw [Function.update_same] at hu
        simp at hu
      · rw [Function.update_noteq hut] at hu
        rw [Function.update_noteq hut]
        exact h8 u P hu
    · intro u P hu
      by_cases hut : u = t
      · subst hut
        rw [Function.update_same] at hu
        have hj' : (cfg.threads u).joined = some P := hu
        obtain ⟨_, _, _, hlast⟩ := h4 u P hj'
        rcases hlast with hl | hl
        · rw [hpc] at hl
          simp at hl
        · have hl1 := hl.1
          rw [hpc] at hl1
          simp at hl1
      · rw [Function.update_noteq hut] at hu
        obtain ⟨hdi, hns, hni, hlast⟩ := h4 u P hu
        refine ⟨?_, ?_, ?_, ?_⟩
        · rw [Function.update_noteq hut]
          exact hdi
        · by_cases hPt : P = t
          · subst hPt
            rw [Function.update_same]
            simp
          · rw [Function.update_noteq hPt]
            exact hns
        · by_cases hPt : P = t
          · subst hPt
            rw [Function.update_same]
            simp
          · rw [Function.update_noteq hPt]
            exact hni
        · rw [Function.update_noteq hut]
          rcases hlast with hl | hl
          · exact Or.inl hl
          · refine Or.inr ⟨hl.1, ?_⟩
            by_cases hPt : P = t
            · subst hPt
              rw [Function.update_same]
            · rw [Function.update_noteq hPt]
              exact hl.2
    · intro u r hu hj
      by_cases hut : u = t
      · subst hut
        rw [Function.update_same] at hu
        simp at hu
      · rw [Function.update_noteq hut] at hu hj
        rw [Function.update_noteq hut]
        exact h7 u r hu hj
  | del =>
    simp only [sfStep, hpc]
    unfold SFInv
    dsimp only
    refine ⟨h1, ?_, ?_, ?_, ?_, ?_, ?_, ?_⟩
    · intro u hu
      by_cases hut : u = t
      · subst hut
        rw [Function.update_same]
        exact h2 u hu
      · rw [Function.update_noteq hut]
        exact h2 u hu
    · intro u hu
      by_cases hut : u = t
      · subst hut
        rw [Function.update_same] at hu
        rcases hu with hu | hu <;> simp at hu
      · rw [Function.update_noteq hut] at hu
        rw [Function.update_noteq hut]
        exact h3 u hu
    · intro P hP
      exact Option.noConfusion hP
    · intro u hu
      by_cases hut : u = t
      · subst hut
        rw [Function.update_same] at hu
        simp at hu
      · rw [Function.update_noteq hut] at hu
        rw [Function.update_noteq hut]
        exact h0 u hu
    · intro u P hu
      by_cases hut : u = t
      · subst hut
        rw [Function.update_same] at hu
        simp at hu
      · rw [Function.update_noteq hut] at hu
        rw [Function.update_noteq hut]
        exact h8 u P hu
    · intro u P hu
      by_cases hut : u = t
      · subst hut
        rw [Function.update_same] at hu
        have hj' : (cfg.threads u).joined = some P := hu
        obtain ⟨_, _, _, hlast⟩ := h4 u P hj'
        rcases hlast with hl | hl
        · rw [hpc] at hl
          simp at hl
        · have hl1 := hl.1
          rw [hpc] at hl1
          simp at hl1
      · rw [Function.update_noteq hut] at hu
        obtain ⟨hdi, hns, hni, hlast⟩ := h4 u P hu
        refine ⟨?_, ?_, ?_, ?_⟩
        · rw [Function.update_noteq hut]
          exact hdi
        · by_cases hPt : P = t
          · subst hPt
            rw [Function.update_same]
            simp
          · rw [Function.update_noteq hPt]
            exact hns
        · by_cases hPt : P = t
          · subst hPt
            rw [Function.update_same]
            simp
          · rw [Function.update_noteq hPt]
            exact hni
        · rw [Function.update_noteq hut]
          exact hlast
    · intro u r hu hj
      by_cases hut : u = t
      · subst hut
        rw [Function.update_same] at hu hj
        obtain ⟨hval, hdi⟩ := h3 u (Or.inr hpc)
        have hu' : SFPc.done ((cfg.calls u).val) = SFPc.done r := hu
        have hr : (cfg.calls u).val = r := by injection hu'
        rw [Function.update_same]
        refine ⟨hdi, ?_⟩
        rw [← hr]
        exact hval
      · rw [Function.update_noteq hut] at hu hj
        rw [Function.update_noteq hut]
        exact h7 u r hu hj
  | waiting prod =>
    simp only [sfStep, hpc]
    by_cases hcond : (cfg.calls prod).done = true
    · rw [if_pos hcond]
      have hjoin : (cfg.threads t).joined = some prod := h8 t prod hpc
      obtain ⟨hdi0, hns0, hni0, _⟩ := h4 t prod hjoin
      have hvp : (cfg.calls prod).val = some (fval prod) := (h2 prod hcond).1
      unfold SFInv
      dsimp only
      refine ⟨h1, ?_, ?_, ?_, ?_, ?_, ?_, ?_⟩
      · intro u hu
        by_cases hut : u = t
        · subst hut
          rw [Function.update_same]
          exact h2 u hu
        · rw [Function.update_noteq hut]
          exact h2 u hu
      · intro u hu
        by_cases hut : u = t
        · subst hut
          rw [Function.update_same] at hu
          rcases hu with hu | hu <;> simp at hu
        · rw [Function.update_noteq hut] at hu
          rw [Function.update_noteq hut]
          exact h3 u hu
      · intro P hP
        by_cases hPt : P = t
        · subst hPt
          exfalso
          rcases h5 P hP with hp | hp | hp <;> rw [hpc] at hp <;> simp at hp
        · rw [Function.update_noteq hPt]
          exact h5 P hP
      · intro u hu
        by_cases hut : u = t
        · subst hut
          rw [Function.update_same] at hu
          simp at hu
        · rw [Function.update_noteq hut] at hu
          rw [Function.update_noteq hut]
          exact h0 u hu
      · intro u P hu
        by_cases hut : u = t
        · subst hut
          rw [Function.update_same] at hu
          simp at hu
        · rw [Function.update_noteq hut] at hu
          rw [Function.update_noteq hut]
          exact h8 u P hu
      · intro u P hu
        by_cases hut : u = t
        · subst hut
          rw [Function.update_same] at hu
          have hj' : (cfg.threads u).joined = some P := hu
          have hP : P = prod := (Option.some.inj (hjoin.symm.trans hj')).symm
          subst hP
          refine ⟨?_, ?_, ?_, ?_⟩
          · rw [Function.update_same]
            exact hdi0
          · by_cases hPu : P = u
            · subst hPu
              rw [Function.update_same]
              simp
            · rw [Function.update_noteq hPu]
              exact hns0
          · by_cases hPu : P = u
            · subst hPu
              rw [Function.update_same]
              simp
            · rw [Function.update_noteq hPu]
              exact hni0
          · right
            constructor
            · rw [Function.update_same, hvp]
            · exact hcond
        · rw [Function.update_noteq hut] at hu
          obtain ⟨hdi, hns, hni, hlast⟩ := h4 u P hu
          refine ⟨?_, ?_, ?_, ?_⟩
          · rw [Function.update_noteq hut]
            exact hdi
          · by_cases hPt : P = t
            · subst hPt
              rw [Function.update_same]
              simp
            · rw [Function.update_noteq hPt]
              exact hns
          · by_cases hPt : P = t
            · subst hPt
              rw [Function.update_same]
              simp
            · rw [Function.update_noteq hPt]
              exact hni
          · rw [Function.update_noteq hut]
            exact hlast
      · intro u r hu hj
        by_cases hut : u = t
        · subst hut
          rw [Function.update_same] at hj
          have hj' : (cfg.threads u).joined = none := hj
          rw [hjoin] at hj'
          exact Option.noConfusion hj'
        · rw [Function.update_noteq hut] at hu hj
          rw [Function.update_noteq hut]
          exact h7 u r hu hj
    · rw [if_neg hcond]
      exact ⟨h1, h2, h3, h5, h0, h8, h4, h7⟩
  | done r =>
    simp only [sfStep, hpc]
    exact ⟨h1, h2, h3, h5, h0, h8, h4, h7⟩

theorem sfInv_run (fval : Nat → Nat) (sched : List Nat) (cfg : SFConfig)
    (h : SFInv fval cfg) : SFInv fval (sfRun fval sched cfg) := by
  induction sched generalizing cfg with
  | nil => exact h
  | cons a l ih => exact ih (sfStep fval cfg a) (sfInv_step fval cfg a h)

/-- Counterexample to C4 as stated: Do checks the map with Load and
installs its record with a separate, non-atomic Store, so under the
alternating schedule 0,1,0,1,... two overlapping callers both miss the
Load, both install, both invoke fn, and they return different results —
fn runs twice for a single overlapping set of Do calls, against the
claim's exactly-once with a shared (value, error). -/
theorem C4_double_invocation :
    ((sfRun (fun u => 100 + u) [0, 1, 0, 1, 0, 1, 0, 1, 0, 1]
        sfInit).threads 0).didInvoke = true ∧
    ((sfRun (fun u => 100 + u) [0, 1, 0, 1, 0, 1, 0, 1, 0, 1]
        sfInit).threads 1).didInvoke = true ∧
    ((sfRun (fun u => 100 + u) [0, 1, 0, 1, 0, 1, 0, 1, 0, 1]
        sfInit).threads 0).pc = SFPc.done (some 100) ∧
    ((sfRun (fun u => 100 + u) [0, 1, 0, 1, 0, 1, 0, 1, 0, 1]
        sfInit).threads 1).pc = SFPc.done (some 101) := by
  decide

/-- C4 (amended).  Per-record duplicate suppression, over every
interleaving of the Do callers: a caller whose Load found an in-flight
record (joined = some P) never invokes fn; when such a caller returns,
its result is exactly the value produced by P's single invocation of fn
(and P did run fn); and a caller whose Load found no record (joined =
none) — whether it started after the record's Delete or raced another
installer's non-atomic Load-then-Store — invokes fn itself and returns
its own invocation's result.  The original claim's global exactly-once
fails because Load and Store are separate steps (see the
counterexample). -/
theorem C4_per_record_coalescing (fval : Nat → Nat) (sched : List Nat)
    (t P : Nat) (r : Option Nat) :
    (((sfRun fval sched sfInit).threads t).joined = some P →
      ((sfRun fval sched sfInit).threads t).didInvoke = false) ∧
    (((sfRun fval sched sfInit).threads t).pc = SFPc.done r →
      ((sfRun fval sched sfInit).threads t).joined = some P →
      r = some (fval P) ∧
        ((sfRun fval sched sfInit).threads P).didInvoke = true) ∧
    (((sfRun fval sched sfInit).threads t).pc = SFPc.done r →
      ((sfRun fval sched sfInit).threads t).joined = none →
      ((sfRun fval sched sfInit).threads t).didInvoke = true ∧
        r = some (fval t)) := by
  obtain ⟨h1, h2, h3, h5, h0, h8, h4, h7⟩ :=
    sfInv_run fval sched sfInit (sfInv_init fval)
  refine ⟨?_, ?_, ?_⟩
  · intro hj
    exact (h4 t P hj).1
  · intro hpc hj
    obtain ⟨hdi, hns, hni, hlast⟩ := h4 t P hj
    rcases hlast with hl | hl
    · rw [hpc] at hl
      exact absurd hl (by simp)
    · have heq := hpc.symm.trans hl.1
      have hr : r = some (fval P) := by injection heq
      exact ⟨hr, (h2 P hl.2).2⟩
  · intro hpc hj
    exact h7 t r hpc hj

/-- Witness for C4 on the schedule 0,0,1,0,0,1,0: thread 0 installs the
record and runs fn; thread 1 coalesces onto it, does not invoke fn, and
returns thread 0's result; thread 0 (joined to nobody) returns its own. -/
theorem C4_per_record_coalescing_witness :
    ((sfRun (fun u => u + 40) [0, 0, 1, 0, 0, 1, 0] sfInit).threads 1).didInvoke
        = false ∧
    ((some 40 : Option Nat) = some ((fun u : Nat => u + 40) 0) ∧
      ((sfRun (fun u => u + 40) [0, 0, 1, 0, 0, 1, 0] sfInit).threads 0).didInvoke
        = true) ∧
    (((sfRun (fun u => u + 40) [0, 0, 1, 0, 0, 1, 0] sfInit).threads 0).didInvoke
        = true ∧
      (some 40 : Option Nat) = some ((fun u : Nat => u + 40) 0)) := by
  refine ⟨?_, ?_, ?_⟩
  · exact (C4_per_record_coalescing (fun u => u + 40) [0, 0, 1, 0, 0, 1, 0]
      1 0 (some 40)).1 (by decide)
  · exact (C4_per_record_coalescing (fun u => u + 40) [0, 0, 1, 0, 0, 1, 0]
      1 0 (some 40)).2.1 (by decide) (by decide)
  · exact (C4_per_record_coalescing (fun u => u + 40) [0, 0, 1, 0, 0, 1, 0]
      0 0 (some 40)).2.2 (by decide) (by decide)
